import Mathlib

/-!
Shallow embedding of the bito-lint core (crates/bito-lint-core) in Lean 4,
covering the inline-suppression parser (`src/directives.rs`), the text
segmenter (`src/text.rs`), the rule-resolution engine (`src/rules.rs`) and
the lint orchestration engine (`src/lint.rs`), together with theorems about
the spec claims.

Modelling conventions:
* Rust `&str`/`String` text is modelled as `List Char`; check names and other
  opaque string payloads are Lean `String`s.
* Rust `f64` is modelled as `ℚ` (the claims are about which formula is
  applied, not floating-point rounding).
* Rust `usize` is `Nat`, `i32` is `Int`.
* `HashMap` values are modelled as association lists with the same lookup
  semantics; the only iteration over a `HashMap` in the embedded code
  (closing the open-set at the end of `parse_suppressions`) commutes between
  keys, so the deterministic list order is observationally equal.
* Unicode character classes used by the Rust code are embedded as follows:
  the `White_Space` property is embedded in full; `is_uppercase`,
  `is_lowercase`, `is_alphanumeric` and the regex class `\w` are embedded on
  their ASCII fragment (every concrete input exercised by a theorem below is
  ASCII, except where UTF-8 byte length itself is under test).
-/

namespace BitoLint

/-- The Unicode `White_Space` property, as used by Rust `char::is_whitespace`,
`str::trim` and the (Unicode-aware) regex class `\s`. -/
def rustIsWs (c : Char) : Bool :=
  (0x09 ≤ c.toNat && c.toNat ≤ 0x0D) || c.toNat = 0x20 || c.toNat = 0x85 ||
  c.toNat = 0xA0 || c.toNat = 0x1680 ||
  (0x2000 ≤ c.toNat && c.toNat ≤ 0x200A) ||
  c.toNat = 0x2028 || c.toNat = 0x2029 || c.toNat = 0x202F ||
  c.toNat = 0x205F || c.toNat = 0x3000

/-- ASCII fragment of Rust `char::is_uppercase`. -/
def rustIsUpper (c : Char) : Bool :=
  'A'.toNat ≤ c.toNat && c.toNat ≤ 'Z'.toNat

/-- ASCII fragment of Rust `char::is_lowercase`. -/
def rustIsLower (c : Char) : Bool :=
  'a'.toNat ≤ c.toNat && c.toNat ≤ 'z'.toNat

/-- Rust `char::is_ascii_digit`. -/
def rustIsDigit (c : Char) : Bool :=
  '0'.toNat ≤ c.toNat && c.toNat ≤ '9'.toNat

/-- ASCII fragment of Rust `char::is_alphanumeric`. -/
def rustIsAlnum (c : Char) : Bool :=
  rustIsUpper c || rustIsLower c || rustIsDigit c

/-- ASCII fragment of the regex class `\w` (word character). -/
def rustIsWordChar (c : Char) : Bool :=
  rustIsAlnum c || c = '_'

/-- The regex character class `[\w,\s]` from the directive pattern in
`src/directives.rs`. Note that `-` is not in this class. -/
def directiveNameChar (c : Char) : Bool :=
  rustIsWordChar c || c = ',' || rustIsWs c

/-- Rust `str::trim` on a character list (strip `White_Space` on both ends). -/
def rustTrim (l : List Char) : List Char :=
  ((l.dropWhile rustIsWs).reverse.dropWhile rustIsWs).reverse

/-- UTF-8 byte length of a character list, as computed by Rust
`String::len`. -/
def utf8Len (l : List Char) : Nat :=
  (l.map Char.utf8Size).sum

/-- Rust `str::split(',')`: the list of comma-separated segments (an input
without a comma yields one segment; `n` commas yield `n+1` segments). -/
def splitComma : List Char → List (List Char)
  | [] => [[]]
  | c :: cs =>
    if c = ',' then [] :: splitComma cs
    else
      match splitComma cs with
      | [] => [[c]]
      | seg :: segs => (c :: seg) :: segs

/-- Strip one trailing `'\r'`, as Rust `str::lines` does on each line. -/
def stripCR (l : List Char) : List Char :=
  if l.getLast? = some '\r' then l.dropLast else l

/-- Split at the first `'\n'`: the text before it, and `some` remainder after
it when one exists. -/
def breakNL : List Char → List Char × Option (List Char)
  | [] => ([], none)
  | c :: cs =>
    if c = '\n' then ([], some cs)
    else
      match breakNL cs with
      | (l, r) => (c :: l, r)

theorem breakNL_rest_length {cs l rest} (h : breakNL cs = (l, some rest)) :
    rest.length < cs.length := by
  induction cs generalizing l rest with
  | nil => simp [breakNL] at h
  | cons c cs ih =>
    unfold breakNL at h
    split at h
    · simp at h
      obtain ⟨-, h2⟩ := h
      subst h2
      simp
    · split at h
      rename_i l' r' hbr
      simp at h
      obtain ⟨-, h2⟩ := h
      subst h2
      have := ih hbr
      simp
      omega

/-- Fuel-indexed worker for `rustLines` (structural recursion so that the
kernel can evaluate it; the fuel is always at least the list length, and
`breakNL` strictly shrinks the remainder, so the fuel never runs out). -/
def rustLinesF : Nat → List Char → List (List Char)
  | 0, _ => []
  | _ + 1, [] => []
  | f + 1, c :: cs =>
    match breakNL (c :: cs) with
    | (l, none) => [stripCR l]
    | (l, some rest) => stripCR l :: rustLinesF f rest

theorem rustLinesF_fuel :
    ∀ f1 f2 cs, cs.length ≤ f1 → cs.length ≤ f2 →
      rustLinesF f1 cs = rustLinesF f2 cs := by
  intro f1
  induction f1 with
  | zero =>
    intro f2 cs h1 _
    have : cs = [] := by
      cases cs
      · rfl
      · simp at h1
    subst this
    cases f2 <;> rfl
  | succ f1 ih =>
    intro f2 cs h1 h2
    match cs with
    | [] => cases f2 <;> rfl
    | c :: cs' =>
      match f2 with
      | 0 => simp at h2
      | f2 + 1 =>
        unfold rustLinesF
        rcases hbr : breakNL (c :: cs') with ⟨l, r⟩
        match r with
        | none => rfl
        | some rest =>
          have hlen := breakNL_rest_length hbr
          simp only
          rw [ih f2 rest (by simp at h1 hlen ⊢; omega) (by simp at h2 hlen ⊢; omega)]

/-- Rust `str::lines`: split on `'\n'`, strip one trailing `'\r'` per line,
no final empty line for a trailing newline, and no lines at all for `""`. -/
def rustLines (input : List Char) : List (List Char) :=
  rustLinesF input.length input

/-! ### The directive regex

`src/directives.rs` matches, per line, every occurrence of

`<!--\s*bito-lint\s+(disable|enable|disable-next-line)\s+([\w,\s]+?)\s*-->`

with Rust-regex (leftmost-first, Perl-like alternation and laziness)
semantics. The functions below implement exactly that pattern: literal
pieces, greedy `\s*`/`\s+` with backtracking where the following piece can
also start with a class-`\s` character, the ordered alternation of the three
keywords, and the lazy capture group followed by `\s*-->`. -/

/-- Strip an expected literal character sequence. -/
def stripLit : List Char → List Char → Option (List Char)
  | [], cs => some cs
  | _ :: _, [] => none
  | l :: ls, c :: cs => if c = l then stripLit ls cs else none

theorem stripLit_length {ls cs r} (h : stripLit ls cs = some r) :
    r.length + ls.length = cs.length := by
  induction ls generalizing cs with
  | nil =>
    simp [stripLit] at h
    simp [h]
  | cons l ls ih =>
    match cs with
    | [] => simp [stripLit] at h
    | c :: cs =>
      unfold stripLit at h
      split at h
      · have := ih h
        simp
        omega
      · simp at h

/-- Match `\s*-->` and return the remainder after the match. -/
def matchTail (cs : List Char) : Option (List Char) :=
  stripLit ['-', '-', '>'] (cs.dropWhile rustIsWs)

theorem matchTail_length {cs r} (h : matchTail cs = some r) :
    r.length < cs.length := by
  unfold matchTail at h
  have h1 := stripLit_length h
  have h2 : (cs.dropWhile rustIsWs).length ≤ cs.length :=
    (List.dropWhile_sublist _).length_le
  simp at h1
  omega

/-- The lazy capture `([\w,\s]+?)` followed by `\s*-->`: the shortest
non-empty class-character run after which `\s*-->` matches. Returns the
captured run and the remainder after `-->`. -/
def lazyCapture : List Char → Option (List Char × List Char)
  | [] => none
  | c :: cs =>
    if directiveNameChar c then
      match matchTail cs with
      | some rest => some ([c], rest)
      | none =>
        match lazyCapture cs with
        | some (cap, rest) => some (c :: cap, rest)
        | none => none
    else none

theorem lazyCapture_length {cs cap rest} (h : lazyCapture cs = some (cap, rest)) :
    rest.length < cs.length := by
  induction cs generalizing cap rest with
  | nil => simp [lazyCapture] at h
  | cons c cs ih =>
    unfold lazyCapture at h
    split at h
    · split at h
      · rename_i r ht
        simp at h
        obtain ⟨-, h2⟩ := h
        subst h2
        have := matchTail_length ht
        simp
        omega
      · rename_i ht
        split at h
        · rename_i cap' rest' hl
          simp at h
          obtain ⟨-, h2⟩ := h
          subst h2
          have := ih hl
          simp
          omega
        · simp at h
    · simp at h

/-- Greedy `\s+` (the run before the capture group) with backtracking into
the capture: consume as much whitespace as possible first, and on failure
give characters back one at a time. The caller has already checked that at
least one whitespace character is present. -/
def wsCapGo : List Char → Option (List Char × List Char)
  | [] => none
  | c :: cs =>
    if rustIsWs c then
      match wsCapGo cs with
      | some r => some r
      | none => lazyCapture (c :: cs)
    else lazyCapture (c :: cs)

theorem wsCapGo_length {cs cap rest} (h : wsCapGo cs = some (cap, rest)) :
    rest.length < cs.length := by
  induction cs generalizing cap rest with
  | nil => simp [wsCapGo] at h
  | cons c cs ih =>
    unfold wsCapGo at h
    split at h
    · split at h
      · rename_i r hg
        rcases r with ⟨cap', rest'⟩
        simp at h
        obtain ⟨-, h2⟩ := h
        subst h2
        have := ih hg
        simp
        omega
      · exact lazyCapture_length h
    · exact lazyCapture_length h

/-- `\s+` then the lazy capture then `\s*-->` (everything after one of the
three keywords). -/
def afterKeyword (cs : List Char) : Option (List Char × List Char) :=
  match cs with
  | [] => none
  | c :: rest => if rustIsWs c then wsCapGo rest else none

theorem afterKeyword_length {cs cap rest} (h : afterKeyword cs = some (cap, rest)) :
    rest.length < cs.length := by
  unfold afterKeyword at h
  split at h
  · simp at h
  · split at h
    · have := wsCapGo_length h
      simp
      omega
    · simp at h

/-- A directive action keyword. -/
inductive Action where
  | disable
  | enable
  | disableNextLine
deriving DecidableEq, Repr

/-- One alternative of the keyword alternation: the keyword literal followed
by `\s+([\w,\s]+?)\s*-->`. -/
def tryKeyword (kw : List Char) (a : Action) (cs : List Char) :
    Option (Action × List Char × List Char) :=
  match stripLit kw cs with
  | none => none
  | some r =>
    match afterKeyword r with
    | none => none
    | some (cap, rest) => some (a, cap, rest)

theorem tryKeyword_length {kw a cs a' cap rest}
    (h : tryKeyword kw a cs = some (a', cap, rest)) : rest.length < cs.length := by
  unfold tryKeyword at h
  split at h
  · simp at h
  · rename_i r hs
    split at h
    · simp at h
    · rename_i cap' rest' ha
      simp at h
      obtain ⟨-, -, h2⟩ := h
      subst h2
      have e1 := stripLit_length hs
      have e2 := afterKeyword_length ha
      omega

/-- The ordered alternation `(disable|enable|disable-next-line)` followed by
`\s+([\w,\s]+?)\s*-->`, with leftmost-first (Perl-like) semantics. Because
the three keyword literals are pairwise incompatible as text heads (on
`disable-next-line ...` the `disable` literal matches but its mandatory
`\s+` continuation fails on `-`, and `enable` cannot match text starting
with `d`), the engine behaviour is exactly this ordered fallback. -/
def matchAction (cs : List Char) : Option (Action × List Char × List Char) :=
  match tryKeyword "disable".data .disable cs with
  | some r => some r
  | none =>
    match tryKeyword "enable".data .enable cs with
    | some r => some r
    | none => tryKeyword "disable-next-line".data .disableNextLine cs

theorem matchAction_length {cs a cap rest}
    (h : matchAction cs = some (a, cap, rest)) : rest.length < cs.length := by
  unfold matchAction at h
  split at h
  · rename_i r h1
    rcases r with ⟨a', cap', rest'⟩
    simp at h
    obtain ⟨-, -, h2⟩ := h
    subst h2
    exact tryKeyword_length h1
  · split at h
    · rename_i r h2
      rcases r with ⟨a', cap', rest'⟩
      simp at h
      obtain ⟨-, -, h3⟩ := h
      subst h3
      exact tryKeyword_length h2
    · exact tryKeyword_length h

/-- Try to match the whole directive pattern at the current position:
`<!--`, `\s*`, `bito-lint`, `\s+`, the action alternation, the capture and
`\s*-->`. Returns the action, the raw capture, and the remainder of the line
after the match. -/
def matchDirective (cs : List Char) : Option (Action × List Char × List Char) :=
  match stripLit "<!--".data cs with
  | none => none
  | some r1 =>
    match stripLit "bito-lint".data (r1.dropWhile rustIsWs) with
    | none => none
    | some r2 =>
      match r2 with
      | [] => none
      | c :: r3 => if rustIsWs c then matchAction (r3.dropWhile rustIsWs) else none

theorem matchDirective_length {cs a cap rest}
    (h : matchDirective cs = some (a, cap, rest)) : rest.length < cs.length := by
  unfold matchDirective at h
  split at h
  · simp at h
  · rename_i r1 h1
    split at h
    · simp at h
    · rename_i r2 h2
      split at h
      · simp at h
      · rename_i c r3
        split at h
        · have e0 := stripLit_length h1
          have e1 : (r1.dropWhile rustIsWs).length ≤ r1.length :=
            (List.dropWhile_sublist _).length_le
          have e2 := stripLit_length h2
          have e3 : (r3.dropWhile rustIsWs).length ≤ r3.length :=
            (List.dropWhile_sublist _).length_le
          have e4 := matchAction_length h
          simp at e0 e2
          omega
        · simp at h

/-- Fuel-indexed worker for `scanLine` (structural recursion so that the
kernel can evaluate it; a match consumes at least one character and a
non-match advances one character, so fuel equal to the list length
suffices). -/
def scanLineF : Nat → List Char → List (Action × List Char)
  | 0, _ => []
  | _ + 1, [] => []
  | f + 1, c :: rest =>
    match matchDirective (c :: rest) with
    | some (a, cap, after) => (a, cap) :: scanLineF f after
    | none => scanLineF f rest

theorem scanLineF_fuel :
    ∀ f1 f2 cs, cs.length ≤ f1 → cs.length ≤ f2 →
      scanLineF f1 cs = scanLineF f2 cs := by
  intro f1
  induction f1 with
  | zero =>
    intro f2 cs h1 _
    have : cs = [] := by
      cases cs
      · rfl
      · simp at h1
    subst this
    cases f2 <;> rfl
  | succ f1 ih =>
    intro f2 cs h1 h2
    match cs with
    | [] => cases f2 <;> rfl
    | c :: cs' =>
      match f2 with
      | 0 => simp at h2
      | f2 + 1 =>
        unfold scanLineF
        rcases hmd : matchDirective (c :: cs') with _ | ⟨a, cap, after⟩
        · simp only
          rw [ih f2 cs' (by simp at h1 ⊢; omega) (by simp at h2 ⊢; omega)]
        · have hlen := matchDirective_length hmd
          simp only
          rw [ih f2 after (by simp at h1 hlen ⊢; omega) (by simp at h2 hlen ⊢; omega)]

/-- `captures_iter` over one line: scan left to right, taking every
non-overlapping match and continuing after its end. -/
def scanLine (cs : List Char) : List (Action × List Char) :=
  scanLineF cs.length cs

/-- Split the capture on commas, trim each name, drop empty entries
(`checks_str.split(',').map(trim).filter(non-empty)` in
`parse_suppressions`). -/
def dirNames (cap : List Char) : List String :=
  ((splitComma cap).map rustTrim).filterMap
    (fun l => if l = [] then none else some l.asString)

/-- One parsed directive occurrence: its 1-indexed line, action, and check
names. -/
structure Event where
  line : Nat
  action : Action
  checks : List String
deriving DecidableEq, Repr

/-- All directive occurrences of a line list, lines numbered from `n`. -/
def eventsFrom (n : Nat) : List (List Char) → List Event
  | [] => []
  | l :: ls =>
    ((scanLine l).map fun p => Event.mk n p.1 (dirNames p.2)) ++ eventsFrom (n + 1) ls

/-- All directive occurrences of the input, with 1-indexed line numbers
(`input.lines().enumerate()` with `line_num = line_idx + 1`). -/
def extractEvents (input : List Char) : List Event :=
  eventsFrom 1 (rustLines input)

/-! ### SuppressionMap

`SuppressionMap.suppressed` is a `HashMap<String, Vec<(usize, usize)>>`; it
is embedded as an association list with `HashMap` lookup semantics. -/

/-- Map of check names to their suppressed line ranges (1-indexed,
inclusive). An entry with an empty range list means file-level
suppression. -/
def SuppressionMap := List (String × List (Nat × Nat))
deriving DecidableEq

/-- `HashMap::get` on the suppression map. -/
def lookupRanges (m : SuppressionMap) (check : String) : Option (List (Nat × Nat)) :=
  match m with
  | [] => none
  | (k, v) :: rest => if k = check then some v else lookupRanges rest check

/-- `SuppressionMap::is_suppressed`: file-level suppression (empty range
list) suppresses every line; otherwise a linear scan of the ranges. -/
def isSuppressed (m : SuppressionMap) (check : String) (line : Nat) : Bool :=
  match lookupRanges m check with
  | none => false
  | some ranges =>
    if ranges.isEmpty then true
    else ranges.any fun r => r.1 ≤ line && line ≤ r.2

/-- `SuppressionMap::is_fully_suppressed`: only the file-level sentinel. -/
def isFullySuppressed (m : SuppressionMap) (check : String) : Bool :=
  match lookupRanges m check with
  | none => false
  | some ranges => ranges.isEmpty

/-- `SuppressionMap::is_empty`. -/
def mapIsEmpty (m : SuppressionMap) : Bool :=
  m.isEmpty

/-- `map.suppressed.entry(check).or_default().push(r)`: append a range to
the check's list, creating the entry when absent. -/
def entryPush (m : SuppressionMap) (check : String) (r : Nat × Nat) : SuppressionMap :=
  match m with
  | [] => [(check, [r])]
  | (k, v) :: rest =>
    if k = check then (k, v ++ [r]) :: rest else (k, v) :: entryPush rest check r

/-- `map.suppressed.entry(check).or_default().clear()`: reset the check's
list to empty, creating the entry when absent (the file-level sentinel). -/
def entryClear (m : SuppressionMap) (check : String) : SuppressionMap :=
  match m with
  | [] => [(check, [])]
  | (k, v) :: rest =>
    if k = check then (k, []) :: rest else (k, v) :: entryClear rest check

/-- The open-set `HashMap<String, usize>` of unclosed `disable` directives,
as an association list with `HashMap` lookup semantics. -/
def OpenSet := List (String × Nat)
deriving DecidableEq

/-- `HashMap::get` on the open-set. -/
def lookupOpen (o : OpenSet) (check : String) : Option Nat :=
  match o with
  | [] => none
  | (k, v) :: rest => if k = check then some v else lookupOpen rest check

/-- `HashMap::insert` (overwrite) on the open-set. -/
def insertOpen (o : OpenSet) (check : String) (line : Nat) : OpenSet :=
  match o with
  | [] => [(check, line)]
  | (k, v) :: rest =>
    if k = check then (k, line) :: rest else (k, v) :: insertOpen rest check line

/-- `HashMap::remove` on the open-set, returning the removed value (the
association list never holds a duplicate key, so dropping every entry with
the key is observationally the `HashMap` removal). -/
def removeOpen (o : OpenSet) (check : String) : Option Nat × OpenSet :=
  (lookupOpen o check, o.filter fun p => !(p.1 == check))

/-- State of the `parse_suppressions` scan: the open-set and the map built
so far. -/
def ParseState := OpenSet × SuppressionMap

/-- Process the checks of one `disable` directive
(`open.insert(check, line_num)` for each check). -/
def applyDisable (line : Nat) (checks : List String) (st : ParseState) : ParseState :=
  checks.foldl (fun st c => (insertOpen st.1 c line, st.2)) st

/-- Process the checks of one `enable` directive: close a matching open
entry as the inclusive range `(open_line, current_line)`; an enable with no
matching open is a no-op. -/
def applyEnable (line : Nat) (checks : List String) (st : ParseState) : ParseState :=
  checks.foldl
    (fun st c =>
      match removeOpen st.1 c with
      | (some start, o') => (o', entryPush st.2 c (start, line))
      | (none, o') => (o', st.2))
    st

/-- Process the checks of one `disable-next-line` directive: append the
range `(line+1, line+1)` directly. -/
def applyDNL (line : Nat) (checks : List String) (st : ParseState) : ParseState :=
  checks.foldl (fun st c => (st.1, entryPush st.2 c (line + 1, line + 1))) st

/-- Process one directive occurrence. -/
def applyEvent (st : ParseState) (e : Event) : ParseState :=
  match e.action with
  | .disable => applyDisable e.line e.checks st
  | .enable => applyEnable e.line e.checks st
  | .disableNextLine => applyDNL e.line e.checks st

/-- Convert every check left open at end-of-document into the file-level
sentinel (empty range list). The Rust code iterates the open-set `HashMap`
in unspecified order; `entryClear` operations on distinct keys commute and
the open-set has no duplicate keys, so the deterministic list order gives
the same map. -/
def finalizeOpen (o : OpenSet) (m : SuppressionMap) : SuppressionMap :=
  o.foldl (fun m p => entryClear m p.1) m

/-- `parse_suppressions` from `src/directives.rs`: scan every line for
directive matches, maintain the open-set, and close leftover opens as
file-level suppressions. -/
def parseSuppressions (input : List Char) : SuppressionMap :=
  match (extractEvents input).foldl applyEvent (([], []) : ParseState) with
  | (openSet, m) => finalizeOpen openSet m

/-! ### Text segmentation (`src/text.rs`)

`split_sentences` scans characters left to right; on a terminator it builds
a `SentenceContext` from the surrounding characters and asks
`is_sentence_boundary`. The regex helpers (`DECIMAL_PATTERN`, `URL_PATTERN`,
`EMAIL_PATTERN`, `INITIALS_PATTERN`) are embedded as their existence
semantics (a regex `is_match` holds iff some decomposition of some substring
matches the pattern). -/

/-- ASCII fragment of Rust `str::to_lowercase` on one character. -/
def asciiLower (c : Char) : Char :=
  if rustIsUpper c then Char.ofNat (c.toNat + 32) else c

/-- Rust `str::trim_matches('.')`: strip all leading and trailing dots. -/
def trimMatchesDot (l : List Char) : List Char :=
  ((l.dropWhile (· = '.')).reverse.dropWhile (· = '.')).reverse

/-- Rust `str::trim_end_matches('.')`: strip all trailing dots. -/
def trimEndDots (l : List Char) : List Char :=
  (l.reverse.dropWhile (· = '.')).reverse

/-- The `ABBREVIATIONS` set from `src/dictionaries/abbreviations.rs`. -/
def abbreviationsList : List String :=
  ["mr", "mrs", "ms", "miss", "dr", "prof", "rev", "fr", "sr", "jr", "messrs",
   "mmes", "msgr", "hon", "esq", "phd", "md", "dds", "capt", "col", "gen",
   "lt", "maj", "sgt", "cpl", "pvt", "adm", "cmdr", "sen", "rep", "gov",
   "pres", "sec",
   "b.a", "b.s", "m.a", "m.s", "m.b.a", "ph.d", "m.d", "j.d", "ll.b", "ll.m",
   "d.d.s", "d.v.m", "pharm.d", "ed.d", "psy.d",
   "etc", "vs", "e.g", "i.e", "et al", "cf", "viz", "ibid", "op. cit",
   "loc. cit", "n.b", "p.s", "r.s.v.p",
   "a.m", "p.m", "b.c", "a.d", "c.e", "b.c.e", "jan", "feb", "mar", "apr",
   "jun", "jul", "aug", "sep", "sept", "oct", "nov", "dec", "mon", "tue",
   "tues", "wed", "thu", "thur", "thurs", "fri", "sat", "sun",
   "st", "ave", "blvd", "rd", "ct", "ln", "pl", "ter", "apt", "ste", "rm",
   "fl", "bldg", "dept", "u.s", "u.k", "u.s.a", "e.u", "n.y", "calif", "fla",
   "mass", "penn", "wash",
   "inc", "corp", "ltd", "llc", "co", "bros", "assn", "div", "mfg", "dist",
   "intl",
   "oz", "lb", "lbs", "kg", "g", "mg", "l", "ml", "cm", "mm", "m", "km",
   "in", "ft", "yd", "mi", "sq", "cu", "mph", "kph", "rpm", "hp",
   "vol", "no", "nos", "p", "pp", "par", "sec", "ch", "fig", "eq", "est",
   "approx", "min", "max", "avg",
   "misc", "nr", "ref", "refs", "ed", "eds", "trans", "supp", "app", "encl"]

/-- `is_abbreviation` from `src/dictionaries/abbreviations.rs`: lowercase,
strip surrounding dots, set lookup. -/
def isAbbreviation (word : List Char) : Bool :=
  abbreviationsList.contains (trimMatchesDot (word.map asciiLower)).asString

/-- The last `n` characters of a list (`chars().rev().take(n)` reversed). -/
def lastN (l : List Char) (n : Nat) : List Char :=
  l.drop (l.length - n)

/-- Existence semantics of `DECIMAL_PATTERN` (`\d+\.\d+`): a digit, a dot
and a digit appear consecutively. -/
def decimalMatch : List Char → Bool
  | a :: b :: c :: rest =>
    (rustIsDigit a && b = '.' && rustIsDigit c) || decimalMatch (b :: c :: rest)
  | _ => false

/-- `is_decimal_number`: `DECIMAL_PATTERN` against the last 10 characters. -/
def isDecimalNumber (sentence : List Char) : Bool :=
  decimalMatch (lastN sentence 10)

/-- Whether the list starts with the given stem followed by at least one
non-whitespace character (one alternative of `URL_PATTERN`,
`(?:https?://|www\.)\S+`). -/
def urlStemAt (stem : String) (l : List Char) : Bool :=
  match stripLit stem.data l with
  | some (d :: _) => !rustIsWs d
  | _ => false

/-- Existence semantics of `URL_PATTERN`. -/
def urlMatch : List Char → Bool
  | [] => false
  | c :: cs =>
    urlStemAt "http://" (c :: cs) || urlStemAt "https://" (c :: cs) ||
    urlStemAt "www." (c :: cs) || urlMatch cs

/-- The regex class `[A-Za-z0-9._%+-]` (email local part). -/
def emailClass1 (c : Char) : Bool :=
  rustIsAlnum c || c = '.' || c = '_' || c = '%' || c = '+' || c = '-'

/-- The regex class `[A-Za-z0-9.-]` (email domain). -/
def emailClass2 (c : Char) : Bool :=
  rustIsAlnum c || c = '.' || c = '-'

/-- ASCII letter (`[A-Za-z]`). -/
def isAsciiAlpha (c : Char) : Bool :=
  rustIsUpper c || rustIsLower c

/-- Whether the character at index `i` is a regex word character (out of
bounds counts as non-word). -/
def isWordAt (l : List Char) (i : Nat) : Bool :=
  match l.get? i with
  | some c => rustIsWordChar c
  | none => false

/-- Regex `\b` at position `i`: characters at `i-1` and `i` disagree on
being word characters. -/
def wordBoundary (l : List Char) (i : Nat) : Bool :=
  (if i = 0 then false else isWordAt l (i - 1)) != isWordAt l i

/-- All characters in index range `[i, j)` exist and satisfy `p`. -/
def rangeAll (l : List Char) (i j : Nat) (p : Char → Bool) : Bool :=
  (List.range (j - i)).all fun k =>
    match l.get? (i + k) with
    | some c => p c
    | none => false

/-- The character at index `i` is `ch`. -/
def charAtIs (l : List Char) (i : Nat) (ch : Char) : Bool :=
  l.get? i == some ch

/-- Existence semantics of `EMAIL_PATTERN`
(`\b[A-Za-z0-9._%+-]+@[A-Za-z0-9.-]+\.[A-Za-z]{2,}\b`): some decomposition
`a ≤ b < c < d` with the class runs and word boundaries of the pattern. -/
def emailMatch (l : List Char) : Bool :=
  let n := l.length
  (List.range (n + 1)).any fun a =>
    wordBoundary l a &&
    ((List.range (n + 1)).any fun b =>
      a < b && rangeAll l a b emailClass1 && charAtIs l b '@' &&
      ((List.range (n + 1)).any fun c =>
        b + 1 < c && rangeAll l (b + 1) c emailClass2 && charAtIs l c '.' &&
        ((List.range (n + 1)).any fun d =>
          c + 3 ≤ d && d ≤ n && rangeAll l (c + 1) d isAsciiAlpha &&
          wordBoundary l d)))

/-- `contains_url_or_email`: the URL or email pattern against the last 50
characters. -/
def containsUrlOrEmail (sentence : List Char) : Bool :=
  urlMatch (lastN sentence 50) || emailMatch (lastN sentence 50)

/-- Existence semantics of `INITIALS_PATTERN` (`\b[A-Z]\.(?:[A-Z]\.)*` used
via `is_match`, so one `\b[A-Z]\.` occurrence suffices). The parameter
carries whether the previous character was a word character. -/
def initialsMatchAux (prevIsWord : Bool) : List Char → Bool
  | c1 :: c2 :: rest =>
    (!prevIsWord && rustIsUpper c1 && c2 = '.') ||
    initialsMatchAux (rustIsWordChar c1) (c2 :: rest)
  | _ => false

/-- `INITIALS_PATTERN.is_match`. -/
def initialsMatch (l : List Char) : Bool :=
  initialsMatchAux false l

/-- `is_likely_abbreviation` from `src/text.rs`: dictionary hit after
stripping trailing dots, or a single uppercase letter. Lengths are UTF-8
byte lengths (`str::len`). -/
def isLikelyAbbreviation (word : List Char) : Bool :=
  if word = [] then false
  else
    let wordClean := trimEndDots word
    if isAbbreviation wordClean then true
    else
      utf8Len wordClean = 1 &&
      (match wordClean.head? with
       | some c => rustIsUpper c
       | none => false)

/-- `is_likely_initial` from `src/text.rs`. -/
def isLikelyInitial (word : List Char) : Bool :=
  if word = [] then false
  else if utf8Len word = 2 &&
      (match word.head? with
       | some c => rustIsUpper c
       | none => false) &&
      word.getLast? == some '.' then true
  else initialsMatch word

/-- The index left by the skip-back loop of `get_word_before`: walk down
from `pos - 1` to the first character that is neither whitespace nor a dot
(landing on index 0 if none is found). -/
def skipBack (chars : List Char) : Nat → Nat
  | 0 => 0
  | i + 1 =>
    if !(rustIsWs (chars.getD i ' ') || chars.getD i ' ' = '.') then i
    else skipBack chars i

/-- The collect loop of `get_word_before`: walk down from index `i` while
characters are alphanumeric or dots, collecting them (already in source
order). -/
def collectBack (chars : List Char) : Nat → List Char
  | 0 =>
    if rustIsAlnum (chars.getD 0 ' ') || chars.getD 0 ' ' = '.' then
      [chars.getD 0 ' ']
    else []
  | i + 1 =>
    if rustIsAlnum (chars.getD (i + 1) ' ') || chars.getD (i + 1) ' ' = '.' then
      collectBack chars i ++ [chars.getD (i + 1) ' ']
    else []

/-- `get_word_before` from `src/text.rs`. -/
def getWordBefore (chars : List Char) (pos : Nat) : List Char :=
  collectBack chars (skipBack chars pos)

/-- Context around a potential sentence boundary (`SentenceContext`). -/
structure SentenceContext where
  punctuation : Char
  word_before : List Char
  char_after : Option Char
  text_after : List Char
  is_end_of_text : Bool
deriving DecidableEq, Repr

/-- `extract_context` from `src/text.rs`: the word before the terminator,
the first non-whitespace character after it, a 20-character lookahead from
that character, and the end-of-text flag. -/
def extractContext (chars : List Char) (pos : Nat) : SentenceContext :=
  let restNW := (chars.drop (pos + 1)).dropWhile rustIsWs
  { punctuation := chars.getD pos ' '
    word_before := getWordBefore chars pos
    char_after := restNW.head?
    text_after := restNW.take 20
    is_end_of_text := pos = chars.length - 1 }

/-- `check_next_char_capitalization` from `src/text.rs`: uppercase next
character means boundary; a quote defers to the character after the quote
being uppercase; anything else falls through to `true`. -/
def checkNextCharCapitalization (ctx : SentenceContext) : Bool :=
  match ctx.char_after with
  | some nc =>
    if rustIsUpper nc then true
    else if nc = '"' || nc = '\'' then
      match ctx.text_after.get? 1 with
      | some c => rustIsUpper c
      | none => false
    else true
  | none => true

/-- `is_sentence_terminator`. -/
def isSentenceTerminator (c : Char) : Bool :=
  c = '.' || c = '!' || c = '?'

/-- `is_sentence_boundary` from `src/text.rs`. -/
def isSentenceBoundary (ctx : SentenceContext) (current : List Char) : Bool :=
  if ctx.is_end_of_text then true
  else if ctx.punctuation = '!' || ctx.punctuation = '?' then
    checkNextCharCapitalization ctx
  else if isLikelyAbbreviation ctx.word_before then false
  else if isLikelyInitial ctx.word_before then false
  else if isDecimalNumber current then false
  else if ['.', '.', '.'].isSuffixOf current then false
  else if containsUrlOrEmail current then false
  else if
      (match ctx.char_after with
       | some nc =>
         rustIsDigit nc &&
         (match ctx.word_before.getLast? with
          | some c => rustIsDigit c
          | none => false)
       | none => false) then false
  else
    match ctx.char_after with
    | some nc =>
      if rustIsUpper nc then true
      else if rustIsLower nc then false
      else true
    | none => true

/-- One iteration of the `split_sentences` scan: push the character onto the
accumulator; on a terminator at a boundary, emit the trimmed sentence when
its UTF-8 byte length is at least 3 (`min_length`) and reset the
accumulator. -/
def splitStep (text : List Char) (st : List (List Char) × List Char)
    (p : Nat × Char) : List (List Char) × List Char :=
  let current := st.2 ++ [p.2]
  if isSentenceTerminator p.2 then
    let ctx := extractContext text p.1
    if isSentenceBoundary ctx current then
      let s := rustTrim current
      (if 3 ≤ utf8Len s then st.1 ++ [s] else st.1, [])
    else (st.1, current)
  else (st.1, current)

/-- `split_sentences` from `src/text.rs`. -/
def splitSentences (text : List Char) : List (List Char) :=
  if (rustTrim text).isEmpty then []
  else
    match text.enum.foldl (splitStep text) ([], []) with
    | (sentences, current) =>
      let s := rustTrim current
      if 3 ≤ utf8Len s then sentences ++ [s] else sentences

/-! ### Configuration shapes (`src/config.rs`)

Only the fields consumed by the rule-resolution and lint engines are
embedded; `f64` settings become `ℚ`, `i32` becomes `Int`. -/

/-- `Dialect` from `src/config.rs`. -/
inductive Dialect where
  | enUs
  | enGb
  | enCa
  | enAu
deriving DecidableEq, Repr

/-- `Backend` from `src/tokens.rs` (default `Claude`). -/
inductive Backend where
  | claude
  | openai
deriving DecidableEq, Repr

instance : Inhabited Backend := ⟨.claude⟩

/-- `AnalyzeRuleConfig` from `src/config.rs`. -/
structure AnalyzeRuleConfig where
  checks : Option (List String) := none
  exclude : Option (List String) := none
  max_grade : Option ℚ := none
  passive_max : Option ℚ := none
  style_min : Option Int := none
  dialect : Option Dialect := none
deriving DecidableEq, Repr

/-- `ReadabilityRuleConfig` from `src/config.rs`. -/
structure ReadabilityRuleConfig where
  max_grade : Option ℚ := none
deriving DecidableEq, Repr

/-- `GrammarRuleConfig` from `src/config.rs`. -/
structure GrammarRuleConfig where
  passive_max : Option ℚ := none
deriving DecidableEq, Repr

/-- `CompletenessRuleConfig` from `src/config.rs`. -/
structure CompletenessRuleConfig where
  template : String
deriving DecidableEq, Repr

/-- `TokensRuleConfig` from `src/config.rs`. -/
structure TokensRuleConfig where
  budget : Option Nat := none
  tokenizer : Option Backend := none
deriving DecidableEq, Repr

/-- `RuleChecks` from `src/config.rs`: the per-check optional settings of a
rule. -/
structure RuleChecks where
  analyze : Option AnalyzeRuleConfig := none
  readability : Option ReadabilityRuleConfig := none
  grammar : Option GrammarRuleConfig := none
  completeness : Option CompletenessRuleConfig := none
  tokens : Option TokensRuleConfig := none
deriving DecidableEq, Repr

/-- Custom completeness templates (name → required section headings),
`config.templates` in `src/config.rs`; association list for the
`HashMap`. -/
def Templates := List (String × List String)

/-- The project-wide `Config` fields consumed by `run_lint`. -/
structure Config where
  max_grade : Option ℚ := none
  passive_max_percent : Option ℚ := none
  style_min_score : Option Int := none
  dialect : Option Dialect := none
  tokenizer : Option Backend := none
  templates : Option Templates := none

/-! ### Rule resolution (`src/rules.rs`) -/

/-- `ResolvedChecks` from `src/rules.rs`. -/
structure ResolvedChecks where
  analyze : Option AnalyzeRuleConfig := none
  readability : Option ReadabilityRuleConfig := none
  grammar : Option GrammarRuleConfig := none
  completeness : Option CompletenessRuleConfig := none
  tokens : Option TokensRuleConfig := none
deriving DecidableEq, Repr

/-- A segment contains a glob wildcard metacharacter. -/
def hasWildcard (seg : List Char) : Bool :=
  seg.any fun c => c = '*' || c = '?' || c = '['

/-- Split a pattern on `/` (Rust `str::split('/')`). -/
def splitSlash : List Char → List (List Char)
  | [] => [[]]
  | c :: cs =>
    if c = '/' then [] :: splitSlash cs
    else
      match splitSlash cs with
      | [] => [[c]]
      | seg :: segs => (c :: seg) :: segs

/-- `specificity` from `src/rules.rs`: the number of path segments without a
wildcard metacharacter. -/
def specificity (pattern : String) : Nat :=
  ((splitSlash pattern.data).filter fun seg => !hasWildcard seg).length

/-- A compiled rule (`CompiledRule` from `src/rules.rs`): pre-compiled glob
matchers with their specificity, plus the rule's checks. The `globset`
matcher itself is external; it is embedded as an opaque match predicate on
file paths. -/
structure CompiledRule where
  matchers : List ((String → Bool) × Nat)
  checks : RuleChecks

/-- The maximum specificity among a rule's patterns matching the path
(`None` when no pattern matches, in which case the rule is skipped). -/
def ruleSpec (path : String) (r : CompiledRule) : Option Nat :=
  ((r.matchers.filter fun m => m.1 path).map fun m => m.2).max?

/-- `Option::is_none_or`. -/
def isNoneOr (o : Option Nat) (p : Nat → Bool) : Bool :=
  match o with
  | none => true
  | some v => p v

/-- Running state of `RuleSet::resolve`: the accumulated result plus, per
check type, the specificity of the winning rule so far. -/
structure ResolveState where
  result : ResolvedChecks
  analyzeSpec : Option Nat
  readabilitySpec : Option Nat
  grammarSpec : Option Nat
  completenessSpec : Option Nat
  tokensSpec : Option Nat

/-- The analyze block of the `resolve` loop body: overwrite the winner iff
the rule configures analyze and its specificity is strictly greater than
the best seen for analyze. -/
def updAnalyze (spec : Nat) (r : CompiledRule) (st : ResolveState) : ResolveState :=
  if r.checks.analyze.isSome && isNoneOr st.analyzeSpec (fun prev => prev < spec) then
    { st with result := { st.result with analyze := r.checks.analyze },
              analyzeSpec := some spec }
  else st

/-- The readability block of the `resolve` loop body. -/
def updReadability (spec : Nat) (r : CompiledRule) (st : ResolveState) : ResolveState :=
  if r.checks.readability.isSome && isNoneOr st.readabilitySpec (fun prev => prev < spec) then
    { st with result := { st.result with readability := r.checks.readability },
              readabilitySpec := some spec }
  else st

/-- The grammar block of the `resolve` loop body. -/
def updGrammar (spec : Nat) (r : CompiledRule) (st : ResolveState) : ResolveState :=
  if r.checks.grammar.isSome && isNoneOr st.grammarSpec (fun prev => prev < spec) then
    { st with result := { st.result with grammar := r.checks.grammar },
              grammarSpec := some spec }
  else st

/-- The completeness block of the `resolve` loop body. -/
def updCompleteness (spec : Nat) (r : CompiledRule) (st : ResolveState) : ResolveState :=
  if r.checks.completeness.isSome && isNoneOr st.completenessSpec (fun prev => prev < spec) then
    { st with result := { st.result with completeness := r.checks.completeness },
              completenessSpec := some spec }
  else st

/-- The tokens block of the `resolve` loop body. -/
def updTokens (spec : Nat) (r : CompiledRule) (st : ResolveState) : ResolveState :=
  if r.checks.tokens.isSome && isNoneOr st.tokensSpec (fun prev => prev < spec) then
    { st with result := { st.result with tokens := r.checks.tokens },
              tokensSpec := some spec }
  else st

/-- The body of the `resolve` loop for one rule: skip the rule when no
pattern matches; otherwise run the five per-check blocks in sequence (they
touch disjoint state fields). -/
def resolveStep (path : String) (st : ResolveState) (r : CompiledRule) : ResolveState :=
  match ruleSpec path r with
  | none => st
  | some spec =>
    updTokens spec r (updCompleteness spec r (updGrammar spec r
      (updReadability spec r (updAnalyze spec r st))))

/-- `RuleSet::resolve` from `src/rules.rs`: iterate compiled rules in
declaration order, accumulating per-check winners. -/
def resolve (rules : List CompiledRule) (path : String) : ResolvedChecks :=
  (rules.foldl (resolveStep path)
    ⟨{}, none, none, none, none, none⟩).result

/-! ### Report shapes

The sub-report structures from `src/grammar/mod.rs`, `src/readability.rs`,
`src/completeness.rs`, `src/tokens.rs` and `src/analysis/reports.rs`,
with `f64` as `ℚ` and `HashMap` as an association list. -/

/-- `PassiveVoiceMatch` from `src/grammar/passive_voice.rs`. -/
structure PassiveVoiceMatch where
  text : String
  confidence : ℚ
  sentence_num : Nat
  auxiliary : String
  participle : String
  has_by_phrase : Bool
deriving DecidableEq, Repr

/-- `GrammarIssueType` from `src/grammar/checker.rs`. -/
inductive GrammarIssueType where
  | subjectVerbAgreement
  | doubleNegative
  | runOnSentence
  | commaSplice
  | doubleSpace
  | missingPunctuation
deriving DecidableEq, Repr

/-- `Severity` from `src/grammar/checker.rs`. -/
inductive Severity where
  | low
  | medium
  | high
deriving DecidableEq, Repr

/-- `GrammarIssue` from `src/grammar/checker.rs`. -/
structure GrammarIssue where
  issue_type : GrammarIssueType
  message : String
  sentence_num : Nat
  severity : Severity
deriving DecidableEq, Repr

/-- `GrammarReport` from `src/grammar/mod.rs`. -/
structure GrammarReport where
  issues : List GrammarIssue
  passive_voice : List PassiveVoiceMatch
  passive_count : Nat
  passive_percentage : ℚ
  sentence_count : Nat
  passive_max : Option ℚ
  over_max : Bool
deriving DecidableEq, Repr

/-- `ReadabilityReport` from `src/readability.rs`. -/
structure ReadabilityReport where
  grade : ℚ
  sentences : Nat
  words : Nat
  syllables : Nat
  max_grade : Option ℚ
  over_max : Bool
deriving DecidableEq, Repr

/-- `SectionStatus` from `src/completeness.rs`. -/
inductive SectionStatus where
  | present
  | empty
  | missing
deriving DecidableEq, Repr

/-- `SectionResult` from `src/completeness.rs`. -/
structure SectionResult where
  name : String
  status : SectionStatus
deriving DecidableEq, Repr

/-- `CompletenessReport` from `src/completeness.rs`. -/
structure CompletenessReport where
  template : String
  sections : List SectionResult
  pass : Bool
deriving DecidableEq, Repr

/-- `TokenReport` from `src/tokens.rs`. -/
structure TokenReport where
  count : Nat
  budget : Option Nat
  over_budget : Bool
  tokenizer : String
deriving DecidableEq, Repr

/-- `StickySentence` from `src/analysis/reports.rs`. -/
structure StickySentence where
  sentence_num : Nat
  glue_percentage : ℚ
  text : String
deriving DecidableEq, Repr

/-- `StickySentencesReport` from `src/analysis/reports.rs`. -/
structure StickySentencesReport where
  overall_glue_index : ℚ
  sticky_count : Nat
  semi_sticky_count : Nat
  sticky_sentences : List StickySentence
deriving DecidableEq, Repr

/-- `PacingReport` from `src/analysis/reports.rs`. -/
structure PacingReport where
  fast_percentage : ℚ
  medium_percentage : ℚ
  slow_percentage : ℚ
deriving DecidableEq, Repr

/-- `LongSentence` from `src/analysis/reports.rs`. -/
structure LongSentence where
  sentence_num : Nat
  word_count : Nat
deriving DecidableEq, Repr

/-- `SentenceLengthReport` from `src/analysis/reports.rs`. -/
structure SentenceLengthReport where
  avg_length : ℚ
  std_deviation : ℚ
  variety_score : ℚ
  shortest : Nat
  longest : Nat
  very_long : List LongSentence
deriving DecidableEq, Repr

/-- `TransitionCount` from `src/analysis/reports.rs`. -/
structure TransitionCount where
  transition : String
  count : Nat
deriving DecidableEq, Repr

/-- `TransitionReport` from `src/analysis/reports.rs`. -/
structure TransitionReport where
  sentences_with_transitions : Nat
  transition_percentage : ℚ
  total_transitions : Nat
  unique_transitions : Nat
  most_common : List TransitionCount
deriving DecidableEq, Repr

/-- `OverusedWord` from `src/analysis/reports.rs`. -/
structure OverusedWord where
  word : String
  count : Nat
  frequency : ℚ
deriving DecidableEq, Repr

/-- `OverusedWordsReport` from `src/analysis/reports.rs`. -/
structure OverusedWordsReport where
  overused_words : List OverusedWord
  total_unique_words : Nat
deriving DecidableEq, Repr

/-- `RepeatedPhrase` from `src/analysis/reports.rs`. -/
structure RepeatedPhrase where
  phrase : String
  count : Nat
deriving DecidableEq, Repr

/-- `RepeatedPhrasesReport` from `src/analysis/reports.rs`. -/
structure RepeatedPhrasesReport where
  total_repeated : Nat
  phrases : List RepeatedPhrase
deriving DecidableEq, Repr

/-- `Echo` from `src/analysis/reports.rs`. -/
structure Echo where
  word : String
  paragraph : Nat
  distance : Nat
  occurrences : Nat
deriving DecidableEq, Repr

/-- `EchoesReport` from `src/analysis/reports.rs`. -/
structure EchoesReport where
  total_echoes : Nat
  echoes : List Echo
deriving DecidableEq, Repr

/-- `SenseData` from `src/analysis/reports.rs`. -/
structure SenseData where
  count : Nat
  percentage : ℚ
deriving DecidableEq, Repr

/-- `SensoryReport` from `src/analysis/reports.rs`. -/
structure SensoryReport where
  sensory_count : Nat
  sensory_percentage : ℚ
  by_sense : List (String × SenseData)
deriving DecidableEq, Repr

/-- `VagueWordCount` from `src/analysis/reports.rs`. -/
structure VagueWordCount where
  word : String
  count : Nat
deriving DecidableEq, Repr

/-- `DictionReport` from `src/analysis/reports.rs`. -/
structure DictionReport where
  total_vague : Nat
  unique_vague : Nat
  most_common : List VagueWordCount
deriving DecidableEq, Repr

/-- `ClicheFound` from `src/analysis/reports.rs`. -/
structure ClicheFound where
  cliche : String
  count : Nat
deriving DecidableEq, Repr

/-- `ClichesReport` from `src/analysis/reports.rs`. -/
structure ClichesReport where
  total_cliches : Nat
  cliches : List ClicheFound
deriving DecidableEq, Repr

/-- `ConsistencyReport` from `src/analysis/reports.rs`. -/
structure ConsistencyReport where
  total_issues : Nat
  issues : List String
deriving DecidableEq, Repr

/-- `AcronymCount` from `src/analysis/reports.rs`. -/
structure AcronymCount where
  acronym : String
  count : Nat
deriving DecidableEq, Repr

/-- `AcronymReport` from `src/analysis/reports.rs`. -/
structure AcronymReport where
  total_acronyms : Nat
  unique_acronyms : Nat
  acronym_list : List AcronymCount
deriving DecidableEq, Repr

/-- `JargonFound` from `src/analysis/reports.rs`. -/
structure JargonFound where
  jargon : String
  count : Nat
deriving DecidableEq, Repr

/-- `BusinessJargonReport` from `src/analysis/reports.rs`. -/
structure BusinessJargonReport where
  total_jargon : Nat
  unique_jargon : Nat
  jargon_list : List JargonFound
deriving DecidableEq, Repr

/-- `ComplexParagraph` from `src/analysis/reports.rs`. -/
structure ComplexParagraph where
  paragraph_num : Nat
  avg_sentence_length : ℚ
  avg_syllables : ℚ
deriving DecidableEq, Repr

/-- `ComplexParagraphsReport` from `src/analysis/reports.rs`. -/
structure ComplexParagraphsReport where
  complex_count : Nat
  percentage : ℚ
  complex_paragraphs : List ComplexParagraph
deriving DecidableEq, Repr

/-- `ConjunctionStartsReport` from `src/analysis/reports.rs`. -/
structure ConjunctionStartsReport where
  count : Nat
  percentage : ℚ
deriving DecidableEq, Repr

/-- `HiddenVerbSuggestion` from `src/analysis/reports.rs`. -/
structure HiddenVerbSuggestion where
  noun : String
  verb : String
  count : Nat
deriving DecidableEq, Repr

/-- `StyleReport` from `src/analysis/reports.rs`. -/
structure StyleReport where
  adverb_count : Nat
  hidden_verbs : List HiddenVerbSuggestion
  style_score : Int
deriving DecidableEq, Repr

/-- `FullAnalysisReport` from `src/analysis/reports.rs`. -/
structure FullAnalysisReport where
  readability : Option ReadabilityReport := none
  grammar : Option GrammarReport := none
  sticky_sentences : Option StickySentencesReport := none
  pacing : Option PacingReport := none
  sentence_length : Option SentenceLengthReport := none
  transitions : Option TransitionReport := none
  overused_words : Option OverusedWordsReport := none
  repeated_phrases : Option RepeatedPhrasesReport := none
  echoes : Option EchoesReport := none
  sensory : Option SensoryReport := none
  diction : Option DictionReport := none
  cliches : Option ClichesReport := none
  consistency : Option ConsistencyReport := none
  acronyms : Option AcronymReport := none
  jargon : Option BusinessJargonReport := none
  complex_paragraphs : Option ComplexParagraphsReport := none
  conjunction_starts : Option ConjunctionStartsReport := none
  style : Option StyleReport := none
deriving DecidableEq, Repr

/-- `LintReport` from `src/lint.rs`. -/
structure LintReport where
  file : String
  analyze : Option FullAnalysisReport := none
  readability : Option ReadabilityReport := none
  grammar : Option GrammarReport := none
  completeness : Option CompletenessReport := none
  tokens : Option TokenReport := none
  pass : Bool
deriving DecidableEq, Repr

/-- `AnalysisError` from `src/error.rs`. -/
inductive AnalysisError where
  | tokenizerInit (detail : String)
  | emptyInput
  | unknownTemplate (name available : String)
  | unknownCheck (names available : String)
  | inputTooLarge (size max : Nat)
  | conflictingConfig (detail : String)
deriving DecidableEq, Repr

/-- `ALL_CHECKS` from `src/analysis/mod.rs`. -/
def ALL_CHECKS : List String :=
  ["readability", "grammar", "sticky", "pacing", "sentence_length",
   "transitions", "overused", "repeated", "echoes", "sensory", "diction",
   "cliches", "consistency", "acronyms", "jargon", "complex_paragraphs",
   "conjunction_starts", "style"]

/-! ### The lint engine (`src/lint.rs`)

The check implementations invoked by `run_lint`
(`analysis::run_full_analysis`, `readability::check_readability`,
`grammar::check_grammar_full`, `completeness::check_completeness`,
`tokens::count_tokens`) are the orchestration's collaborators: `run_lint`
only depends on the reports they return, so they are abstracted as fields
of an environment record and every orchestration theorem quantifies over
them. `text::build_sentence_line_map`, `text::build_paragraph_line_map` and
`directives::is_directive_line` are called by `src/lint.rs` but their
definitions are not among the provided sources, so they are likewise kept
abstract; no theorem below depends on their concrete behaviour. -/

/-- Environment of collaborator functions for `run_lint`. -/
structure ExternalChecks where
  runFullAnalysis : List Char → Bool → Option (List String) → Option ℚ →
    Option ℚ → Option Dialect → Except AnalysisError FullAnalysisReport
  checkReadability : List Char → Bool → Option ℚ →
    Except AnalysisError ReadabilityReport
  checkGrammarFull : List Char → Bool → Option ℚ →
    Except AnalysisError GrammarReport
  checkCompleteness : List Char → String → Option Templates →
    Except AnalysisError CompletenessReport
  countTokens : List Char → Option Nat → Backend →
    Except AnalysisError TokenReport
  isDirectiveLine : List Char → Bool
  buildSentenceLineMap : List Char → List Nat
  buildParagraphLineMap : List Char → List Nat

/-- Resolve a 1-indexed sentence/paragraph number to a source line through a
line map (`map.get(n.saturating_sub(1)).copied().unwrap_or(0)`). -/
def lineAt (map : List Nat) (n : Nat) : Nat :=
  (map.get? (n - 1)).getD 0

/-- `strip_directives_preserving_lines` from `src/lint.rs`: replace each
directive line with an empty line, keeping the line count. -/
def stripDirectivesPreservingLines (env : ExternalChecks) (content : List Char) :
    List Char :=
  List.intercalate ['\n']
    ((rustLines content).map fun l => if env.isDirectiveLine l then [] else l)

/-- `resolve_analyze_checks` from `src/lint.rs`. -/
def resolveAnalyzeChecks (ac : AnalyzeRuleConfig) :
    Except AnalysisError (Option (List String)) :=
  match ac.checks, ac.exclude with
  | some checks, none => .ok (some checks)
  | none, some excl =>
    .ok (some (ALL_CHECKS.filter fun name => !excl.contains name))
  | some _, some _ =>
    .error (.conflictingConfig
      "rule cannot specify both \u0027checks\u0027 and \u0027exclude\u0027 for analyze")
  | none, none => .ok none

/-- `filter_analysis_report` from `src/lint.rs`: build the line maps once,
then filter the location-bearing findings of the grammar, sticky-sentences,
sentence-length, complex-paragraphs and echoes sub-reports and recompute
their aggregates (except `semi_sticky_count`, which the code leaves as-is
because the per-sentence detail for the 35-45% band is not retained). -/
def filterAnalysisReport (env : ExternalChecks) (report : FullAnalysisReport)
    (content : List Char) (suppressions : SuppressionMap) : FullAnalysisReport :=
  let clean := stripDirectivesPreservingLines env content
  let sentenceMap := env.buildSentenceLineMap clean
  let paragraphMap := env.buildParagraphLineMap clean
  let report :=
    match report.grammar with
    | none => report
    | some gr =>
      let issues := gr.issues.filter fun (i : GrammarIssue) =>
        !isSuppressed suppressions "grammar" (lineAt sentenceMap i.sentence_num)
      let pv := gr.passive_voice.filter fun (p : PassiveVoiceMatch) =>
        !isSuppressed suppressions "grammar" (lineAt sentenceMap p.sentence_num)
      let cnt := pv.length
      let pct : ℚ :=
        if 0 < gr.sentence_count then
          (cnt : ℚ) / (gr.sentence_count : ℚ) * 100
        else 0
      let om :=
        match gr.passive_max with
        | some mx => decide (mx < pct)
        | none => false
      { report with
          grammar := some { gr with
            issues := issues, passive_voice := pv, passive_count := cnt,
            passive_percentage := pct, over_max := om } }
  let report :=
    match report.sticky_sentences with
    | none => report
    | some ss =>
      let kept := ss.sticky_sentences.filter fun (s : StickySentence) =>
        !isSuppressed suppressions "sticky_sentences" (lineAt sentenceMap s.sentence_num)
      { report with
          sticky_sentences := some { ss with
            sticky_sentences := kept, sticky_count := kept.length } }
  let report :=
    match report.sentence_length with
    | none => report
    | some sl =>
      { report with
          sentence_length := some { sl with
            very_long := sl.very_long.filter fun (ls : LongSentence) =>
              !isSuppressed suppressions "sentence_length"
                (lineAt sentenceMap ls.sentence_num) } }
  let report :=
    match report.complex_paragraphs with
    | none => report
    | some cp =>
      let totalParagraphs := paragraphMap.length
      let kept := cp.complex_paragraphs.filter fun (p : ComplexParagraph) =>
        !isSuppressed suppressions "complex_paragraphs"
          (lineAt paragraphMap p.paragraph_num)
      let pct : ℚ :=
        if 0 < totalParagraphs then
          (kept.length : ℚ) / (totalParagraphs : ℚ) * 100
        else 0
      { report with
          complex_paragraphs := some { cp with
            complex_paragraphs := kept, complex_count := kept.length,
            percentage := pct } }
  let report :=
    match report.echoes with
    | none => report
    | some er =>
      let kept := er.echoes.filter fun (echo : Echo) =>
        !isSuppressed suppressions "echoes" (lineAt paragraphMap echo.paragraph)
      { report with
          echoes := some { er with echoes := kept, total_echoes := kept.length } }
  report

/-- The `--- analyze ---` block of `run_lint`: resolve the check list
(possibly failing with `ConflictingConfig`), drop fully-suppressed names
from an explicit list, skip entirely when the list is empty, otherwise run
the full analysis, region-filter it when any suppression exists, and gate
`pass` on `style_min`. Returns the optional sub-report and this check's
contribution to `pass`. -/
def analyzeStep (env : ExternalChecks) (stripMd : Bool)
    (suppressions : SuppressionMap) (content : List Char)
    (acOpt : Option AnalyzeRuleConfig) (config : Config) :
    Except AnalysisError (Option FullAnalysisReport × Bool) :=
  match acOpt with
  | none => .ok (none, true)
  | some ac =>
    match resolveAnalyzeChecks ac with
    | .error e => .error e
    | .ok checkList0 =>
      let checkList :=
        if !mapIsEmpty suppressions then
          match checkList0 with
          | some cs => some (cs.filter fun c => !isFullySuppressed suppressions c)
          | none => none
        else checkList0
      if (match checkList with
          | some cs => cs.isEmpty
          | none => false) then
        .ok (none, true)
      else
        let maxGrade := ac.max_grade.or config.max_grade
        let passiveMax := ac.passive_max.or config.passive_max_percent
        let dialect := ac.dialect.or config.dialect
        match env.runFullAnalysis content stripMd checkList maxGrade passiveMax dialect with
        | .error e => .error e
        | .ok report0 =>
          let report :=
            if !mapIsEmpty suppressions then
              filterAnalysisReport env report0 content suppressions
            else report0
          let styleMin := ac.style_min.or config.style_min_score
          let styleFails :=
            match styleMin, report.style with
            | some mn, some st => decide (st.style_score < mn)
            | _, _ => false
          .ok (some report, !styleFails)

/-- The `--- readability ---` block of `run_lint`. -/
def readabilityStep (env : ExternalChecks) (stripMd : Bool)
    (suppressions : SuppressionMap) (content : List Char)
    (rcOpt : Option ReadabilityRuleConfig) (config : Config) :
    Except AnalysisError (Option ReadabilityReport × Bool) :=
  match rcOpt with
  | some rc =>
    if !isFullySuppressed suppressions "readability" then
      match env.checkReadability content stripMd (rc.max_grade.or config.max_grade) with
      | .error e => .error e
      | .ok rep => .ok (some rep, !rep.over_max)
    else .ok (none, true)
  | none => .ok (none, true)

/-- The `--- grammar ---` block of `run_lint`: run the grammar check, and
when any suppression exists, drop findings on suppressed source lines and
recompute `passive_count`, `passive_percentage` and `over_max` from the
filtered findings. -/
def grammarStep (env : ExternalChecks) (stripMd : Bool)
    (suppressions : SuppressionMap) (content : List Char)
    (gcOpt : Option GrammarRuleConfig) (config : Config) :
    Except AnalysisError (Option GrammarReport × Bool) :=
  match gcOpt with
  | some gc =>
    if !isFullySuppressed suppressions "grammar" then
      let passiveMax := gc.passive_max.or config.passive_max_percent
      match env.checkGrammarFull content stripMd passiveMax with
      | .error e => .error e
      | .ok rep0 =>
        let rep :=
          if !mapIsEmpty suppressions then
            let clean := stripDirectivesPreservingLines env content
            let sentenceMap := env.buildSentenceLineMap clean
            let issues := rep0.issues.filter fun issue =>
              !isSuppressed suppressions "grammar" (lineAt sentenceMap issue.sentence_num)
            let pv := rep0.passive_voice.filter fun p =>
              !isSuppressed suppressions "grammar" (lineAt sentenceMap p.sentence_num)
            let cnt := pv.length
            let pct : ℚ :=
              if 0 < rep0.sentence_count then
                (cnt : ℚ) / (rep0.sentence_count : ℚ) * 100
              else 0
            let om :=
              match passiveMax with
              | some mx => decide (mx < pct)
              | none => false
            { rep0 with
                issues := issues, passive_voice := pv, passive_count := cnt,
                passive_percentage := pct, over_max := om }
          else rep0
        .ok (some rep, !rep.over_max)
    else .ok (none, true)
  | none => .ok (none, true)

/-- The `--- completeness ---` block of `run_lint`. -/
def completenessStep (env : ExternalChecks)
    (suppressions : SuppressionMap) (content : List Char)
    (ccOpt : Option CompletenessRuleConfig) (config : Config) :
    Except AnalysisError (Option CompletenessReport × Bool) :=
  match ccOpt with
  | some cc =>
    if !isFullySuppressed suppressions "completeness" then
      match env.checkCompleteness content cc.template config.templates with
      | .error e => .error e
      | .ok rep => .ok (some rep, rep.pass)
    else .ok (none, true)
  | none => .ok (none, true)

/-- The `--- tokens ---` block of `run_lint`. -/
def tokensStep (env : ExternalChecks)
    (suppressions : SuppressionMap) (content : List Char)
    (tcOpt : Option TokensRuleConfig) (config : Config) :
    Except AnalysisError (Option TokenReport × Bool) :=
  match tcOpt with
  | some tc =>
    if !isFullySuppressed suppressions "tokens" then
      let backend := (tc.tokenizer.or config.tokenizer).getD .claude
      match env.countTokens content tc.budget backend with
      | .error e => .error e
      | .ok rep => .ok (some rep, !rep.over_budget)
    else .ok (none, true)
  | none => .ok (none, true)

/-- `run_lint` from `src/lint.rs`: markdown stripping by extension, parse
suppressions, run the five check blocks in order (each `?`-propagating
errors), and AND the per-check pass contributions. -/
def runLint (env : ExternalChecks) (filePath : String) (content : List Char)
    (resolved : ResolvedChecks) (config : Config) :
    Except AnalysisError LintReport :=
  let stripMd := filePath.endsWith ".md"
  let suppressions := parseSuppressions content
  match analyzeStep env stripMd suppressions content resolved.analyze config with
  | .error e => .error e
  | .ok (analyzeReport, p1) =>
    match readabilityStep env stripMd suppressions content resolved.readability config with
    | .error e => .error e
    | .ok (readabilityReport, p2) =>
      match grammarStep env stripMd suppressions content resolved.grammar config with
      | .error e => .error e
      | .ok (grammarReport, p3) =>
        match completenessStep env suppressions content resolved.completeness config with
        | .error e => .error e
        | .ok (completenessReport, p4) =>
          match tokensStep env suppressions content resolved.tokens config with
          | .error e => .error e
          | .ok (tokensReport, p5) =>
            .ok { file := filePath
                  analyze := analyzeReport
                  readability := readabilityReport
                  grammar := grammarReport
                  completeness := completenessReport
                  tokens := tokensReport
                  pass := p1 && p2 && p3 && p4 && p5 }

/-! ### Theorems -/

/-- A concrete collaborator environment used to instantiate witnesses and
counterexamples: every check succeeds with a fixed benign report. -/
def stubEnv : ExternalChecks where
  runFullAnalysis := fun _ _ _ _ _ _ => .ok {}
  checkReadability := fun _ _ mg =>
    .ok { grade := 5, sentences := 1, words := 5, syllables := 7,
          max_grade := mg, over_max := false }
  checkGrammarFull := fun _ _ pm =>
    .ok { issues := [], passive_voice := [], passive_count := 0,
          passive_percentage := 0, sentence_count := 0, passive_max := pm,
          over_max := false }
  checkCompleteness := fun _ t _ =>
    .ok { template := t, sections := [], pass := true }
  countTokens := fun _ b _ =>
    .ok { count := 1, budget := b, over_budget := false, tokenizer := "claude" }
  isDirectiveLine := fun _ => false
  buildSentenceLineMap := fun _ => []
  buildParagraphLineMap := fun _ => []

/-- C5: when the resolved analyze configuration has both an inclusive check
list and an exclusion list, `run_lint` fails with `ConflictingConfig`
before any check runs, producing no report, whatever else is configured. -/
theorem runLint_conflicting_analyze_config (env : ExternalChecks)
    (filePath : String) (content : List Char) (resolved : ResolvedChecks)
    (config : Config) (ac : AnalyzeRuleConfig) (cl ex : List String)
    (hac : resolved.analyze = some ac) (hc : ac.checks = some cl)
    (he : ac.exclude = some ex) :
    runLint env filePath content resolved config =
      .error (.conflictingConfig
        "rule cannot specify both \u0027checks\u0027 and \u0027exclude\u0027 for analyze") := by
  simp only [runLint, analyzeStep, resolveAnalyzeChecks, hac, hc, he]

/-- C5 witness: a concrete conflicting configuration produces exactly the
`ConflictingConfig` error. -/
theorem runLint_conflicting_analyze_config_witness :
    ({ analyze := some { checks := some ["readability"],
                         exclude := some ["style"] } } : ResolvedChecks).analyze =
      some { checks := some ["readability"], exclude := some ["style"] } ∧
    runLint stubEnv "doc.md" "The cat sat on the mat.".data
      { analyze := some { checks := some ["readability"], exclude := some ["style"] } }
      {} =
      .error (.conflictingConfig
        "rule cannot specify both \u0027checks\u0027 and \u0027exclude\u0027 for analyze") :=
  ⟨rfl,
   runLint_conflicting_analyze_config stubEnv "doc.md" "The cat sat on the mat.".data
     { analyze := some { checks := some ["readability"], exclude := some ["style"] } }
     {} { checks := some ["readability"], exclude := some ["style"] }
     ["readability"] ["style"] rfl rfl rfl⟩

/-- C9: `filter_analysis_report` never touches `semi_sticky_count` (the
per-sentence detail for the 35-45% band is not retained, so it cannot be
recomputed), while `sticky_count` in the same sub-report is recomputed as
the length of the filtered `sticky_sentences` list. -/
theorem filterAnalysisReport_semi_sticky (env : ExternalChecks)
    (report : FullAnalysisReport) (content : List Char)
    (suppressions : SuppressionMap) :
    ((filterAnalysisReport env report content suppressions).sticky_sentences).map
        (fun ss => ss.semi_sticky_count) =
      report.sticky_sentences.map (fun ss => ss.semi_sticky_count) ∧
    ((filterAnalysisReport env report content suppressions).sticky_sentences).map
        (fun ss => ss.sticky_count) =
      report.sticky_sentences.map (fun ss =>
        (ss.sticky_sentences.filter fun s =>
          !isSuppressed suppressions "sticky_sentences"
            (lineAt (env.buildSentenceLineMap
              (stripDirectivesPreservingLines env content)) s.sentence_num)).length) ∧
    ((filterAnalysisReport env report content suppressions).sticky_sentences).map
        (fun ss => ss.sticky_sentences.length) =
      ((filterAnalysisReport env report content suppressions).sticky_sentences).map
        (fun ss => ss.sticky_count) := by
  unfold filterAnalysisReport
  cases hg : report.grammar <;> cases hs : report.sticky_sentences <;>
    cases hl : report.sentence_length <;> cases hcp : report.complex_paragraphs <;>
    cases he : report.echoes <;> simp [hg, hs, hl, hcp, he]

theorem runLint_ok_parts {env : ExternalChecks} {fp : String}
    {content : List Char} {resolved : ResolvedChecks} {config : Config}
    {r : LintReport} (h : runLint env fp content resolved config = .ok r) :
    ∃ p1 p2 p3 p4 p5,
      analyzeStep env (fp.endsWith ".md") (parseSuppressions content) content
          resolved.analyze config = .ok (r.analyze, p1) ∧
      readabilityStep env (fp.endsWith ".md") (parseSuppressions content) content
          resolved.readability config = .ok (r.readability, p2) ∧
      grammarStep env (fp.endsWith ".md") (parseSuppressions content) content
          resolved.grammar config = .ok (r.grammar, p3) ∧
      completenessStep env (parseSuppressions content) content
          resolved.completeness config = .ok (r.completeness, p4) ∧
      tokensStep env (parseSuppressions content) content
          resolved.tokens config = .ok (r.tokens, p5) ∧
      r.pass = (p1 && p2 && p3 && p4 && p5) ∧ r.file = fp := by
  simp only [runLint] at h
  split at h
  · simp at h
  · rename_i ra p1 h1
    split at h
    · simp at h
    · rename_i rb p2 h2
      split at h
      · simp at h
      · rename_i rg p3 h3
        split at h
        · simp at h
        · rename_i rc p4 h4
          split at h
          · simp at h
          · rename_i rt p5 h5
            simp only [Except.ok.injEq] at h
            subst h
            exact ⟨p1, p2, p3, p4, p5, h1, h2, h3, h4, h5, rfl, rfl⟩

theorem grammarStep_filtered {env : ExternalChecks} {stripMd : Bool}
    {supp : SuppressionMap} {content : List Char} {gc : GrammarRuleConfig}
    {config : Config} {o : Option GrammarReport} {p : Bool} {gr : GrammarReport}
    (hs : mapIsEmpty supp = false)
    (h : grammarStep env stripMd supp content (some gc) config = .ok (o, p))
    (ho : o = some gr) :
    ∃ rep0,
      env.checkGrammarFull content stripMd (gc.passive_max.or config.passive_max_percent) =
        .ok rep0 ∧
      gr.issues = rep0.issues.filter (fun issue =>
        !isSuppressed supp "grammar"
          (lineAt (env.buildSentenceLineMap (stripDirectivesPreservingLines env content))
            issue.sentence_num)) ∧
      gr.passive_voice = rep0.passive_voice.filter (fun pv =>
        !isSuppressed supp "grammar"
          (lineAt (env.buildSentenceLineMap (stripDirectivesPreservingLines env content))
            pv.sentence_num)) ∧
      gr.sentence_count = rep0.sentence_count ∧
      gr.passive_count = gr.passive_voice.length ∧
      gr.passive_percentage =
        (if 0 < gr.sentence_count then
          (gr.passive_count : ℚ) / (gr.sentence_count : ℚ) * 100
        else 0) ∧
      gr.over_max =
        (match gc.passive_max.or config.passive_max_percent with
         | some mx => decide (mx < gr.passive_percentage)
         | none => false) ∧
      p = !gr.over_max := by
  simp only [grammarStep] at h
  split at h
  · split at h
    · simp at h
    · rename_i rep0 hrep
      rw [hs] at h
      simp only [Bool.not_false, if_true, Except.ok.injEq, Prod.mk.injEq] at h
      obtain ⟨h1, h2⟩ := h
      subst ho
      simp only [Option.some.injEq] at h1
      subst h1
      subst h2
      exact ⟨rep0, hrep, rfl, rfl, rfl, rfl, rfl, rfl, rfl⟩
  · simp at h
    obtain ⟨h1, -⟩ := h
    rw [← h1] at ho
    simp at ho

/-- C4: whenever any suppression exists and the standalone grammar check
runs, the grammar sub-report in the `run_lint` result has
`passive_count = |filtered passive_voice|`, `passive_percentage` recomputed
as `count / sentence_count * 100` (0 when `sentence_count = 0`), `over_max`
recomputed from the new percentage against the configured maximum, and its
finding lists are the suppression-filtered lists of the raw check report —
no pre-filter aggregate survives. -/
theorem runLint_grammar_recomputed (env : ExternalChecks) (fp : String)
    (content : List Char) (resolved : ResolvedChecks) (config : Config)
    (gc : GrammarRuleConfig) (r : LintReport) (gr : GrammarReport)
    (hgc : resolved.grammar = some gc)
    (hsupp : mapIsEmpty (parseSuppressions content) = false)
    (hrun : runLint env fp content resolved config = .ok r)
    (hgr : r.grammar = some gr) :
    ∃ rep0,
      env.checkGrammarFull content (fp.endsWith ".md")
          (gc.passive_max.or config.passive_max_percent) = .ok rep0 ∧
      gr.issues = rep0.issues.filter (fun issue =>
        !isSuppressed (parseSuppressions content) "grammar"
          (lineAt (env.buildSentenceLineMap (stripDirectivesPreservingLines env content))
            issue.sentence_num)) ∧
      gr.passive_voice = rep0.passive_voice.filter (fun pv =>
        !isSuppressed (parseSuppressions content) "grammar"
          (lineAt (env.buildSentenceLineMap (stripDirectivesPreservingLines env content))
            pv.sentence_num)) ∧
      gr.sentence_count = rep0.sentence_count ∧
      gr.passive_count = gr.passive_voice.length ∧
      gr.passive_percentage =
        (if 0 < gr.sentence_count then
          (gr.passive_count : ℚ) / (gr.sentence_count : ℚ) * 100
        else 0) ∧
      gr.over_max =
        (match gc.passive_max.or config.passive_max_percent with
         | some mx => decide (mx < gr.passive_percentage)
         | none => false) := by
  obtain ⟨p1, p2, p3, p4, p5, -, -, h3, -, -, -, -⟩ := runLint_ok_parts hrun
  rw [hgc, hgr] at h3
  obtain ⟨rep0, ha, hb, hc, hd, he, hf, hg, -⟩ :=
    grammarStep_filtered hsupp h3 rfl
  exact ⟨rep0, ha, hb, hc, hd, he, hf, hg⟩

/-- Concrete content with one suppression directive, used by the C4
witness. -/
def c4Content : List Char :=
  "<!-- bito-lint disable-next-line style -->\nThe cat sat.".data

/-- C4 witness: the theorem applied at a concrete run with a non-empty
suppression map. -/
theorem runLint_grammar_recomputed_witness :
    mapIsEmpty (parseSuppressions c4Content) = false ∧
    ∃ rep0,
      stubEnv.checkGrammarFull c4Content true
          ((({} : GrammarRuleConfig).passive_max).or (({} : Config).passive_max_percent)) =
        .ok rep0 ∧
      ([] : List GrammarIssue) =
        rep0.issues.filter (fun issue =>
          !isSuppressed (parseSuppressions c4Content) "grammar"
            (lineAt (stubEnv.buildSentenceLineMap
              (stripDirectivesPreservingLines stubEnv c4Content))
              issue.sentence_num)) ∧
      ([] : List PassiveVoiceMatch) =
        rep0.passive_voice.filter (fun pv =>
          !isSuppressed (parseSuppressions c4Content) "grammar"
            (lineAt (stubEnv.buildSentenceLineMap
              (stripDirectivesPreservingLines stubEnv c4Content))
              pv.sentence_num)) ∧
      (0 : Nat) = rep0.sentence_count ∧
      (0 : Nat) = ([] : List PassiveVoiceMatch).length ∧
      (0 : ℚ) = (if (0 : Nat) < (0 : Nat) then ((0 : Nat) : ℚ) / ((0 : Nat) : ℚ) * 100 else 0) ∧
      false =
        (match (({} : GrammarRuleConfig).passive_max).or (({} : Config).passive_max_percent) with
         | some mx => decide (mx < (0 : ℚ))
         | none => false) := by
  constructor
  · rfl
  · exact runLint_grammar_recomputed stubEnv "doc.md" c4Content
      { grammar := some {} } {} {}
      { file := "doc.md", grammar := some
          { issues := [], passive_voice := [], passive_count := 0,
            passive_percentage := 0, sentence_count := 0, passive_max := none,
            over_max := false },
        pass := true }
      { issues := [], passive_voice := [], passive_count := 0,
        passive_percentage := 0, sentence_count := 0, passive_max := none,
        over_max := false }
      rfl rfl (by rfl) rfl

theorem fully_suppressed_nonempty {m : SuppressionMap} {c : String}
    (h : isFullySuppressed m c = true) : mapIsEmpty m = false := by
  cases m with
  | nil => simp [isFullySuppressed, lookupRanges] at h
  | cons p rest => simp [mapIsEmpty]

theorem readabilityStep_skip {env : ExternalChecks} {s : Bool}
    {supp : SuppressionMap} {content : List Char} {rc : ReadabilityRuleConfig}
    {config : Config} (h : isFullySuppressed supp "readability" = true) :
    readabilityStep env s supp content (some rc) config = .ok (none, true) := by
  simp [readabilityStep, h]

theorem grammarStep_skip {env : ExternalChecks} {s : Bool}
    {supp : SuppressionMap} {content : List Char} {gc : GrammarRuleConfig}
    {config : Config} (h : isFullySuppressed supp "grammar" = true) :
    grammarStep env s supp content (some gc) config = .ok (none, true) := by
  simp [grammarStep, h]

theorem completenessStep_skip {env : ExternalChecks}
    {supp : SuppressionMap} {content : List Char} {cc : CompletenessRuleConfig}
    {config : Config} (h : isFullySuppressed supp "completeness" = true) :
    completenessStep env supp content (some cc) config = .ok (none, true) := by
  simp [completenessStep, h]

theorem tokensStep_skip {env : ExternalChecks}
    {supp : SuppressionMap} {content : List Char} {tc : TokensRuleConfig}
    {config : Config} (h : isFullySuppressed supp "tokens" = true) :
    tokensStep env supp content (some tc) config = .ok (none, true) := by
  simp [tokensStep, h]

theorem analyzeStep_skip {env : ExternalChecks} {s : Bool}
    {supp : SuppressionMap} {content : List Char} {ac : AnalyzeRuleConfig}
    {config : Config} {cl : List String} (hc : ac.checks = some cl)
    (he : ac.exclude = none)
    (hall : ∀ c ∈ cl, isFullySuppressed supp c = true) :
    analyzeStep env s supp content (some ac) config = .ok (none, true) := by
  cases cl with
  | nil =>
    cases hm : mapIsEmpty supp <;>
      simp [analyzeStep, resolveAnalyzeChecks, hc, he, hm]
  | cons c0 cs =>
    have hne : mapIsEmpty supp = false :=
      fully_suppressed_nonempty (hall c0 (by simp))
    have hfil : (c0 :: cs).filter (fun c => !isFullySuppressed supp c) = [] := by
      rw [List.filter_eq_nil_iff]
      intro a ha
      simp [hall a ha]
    simp [analyzeStep, resolveAnalyzeChecks, hc, he, hne, hfil]

/-- C1 (amended): for the four standalone check types (readability, grammar,
completeness, tokens), full suppression of the check's name makes `run_lint`
behave exactly as if that check were not configured (no sub-report, no
contribution to `pass`). For `analyze`, full suppression of individual
sub-check names drops them from an explicit check list, and `analyze` is
skipped iff every listed sub-check is fully suppressed; full suppression of
the name "analyze" itself is never consulted. -/
theorem runLint_full_suppression_skips (env : ExternalChecks) (fp : String)
    (content : List Char) (resolved : ResolvedChecks) (config : Config) :
    (isFullySuppressed (parseSuppressions content) "readability" = true →
      runLint env fp content resolved config =
        runLint env fp content { resolved with readability := none } config) ∧
    (isFullySuppressed (parseSuppressions content) "grammar" = true →
      runLint env fp content resolved config =
        runLint env fp content { resolved with grammar := none } config) ∧
    (isFullySuppressed (parseSuppressions content) "completeness" = true →
      runLint env fp content resolved config =
        runLint env fp content { resolved with completeness := none } config) ∧
    (isFullySuppressed (parseSuppressions content) "tokens" = true →
      runLint env fp content resolved config =
        runLint env fp content { resolved with tokens := none } config) ∧
    (∀ ac cl, resolved.analyze = some ac → ac.checks = some cl →
      ac.exclude = none →
      (∀ c ∈ cl, isFullySuppressed (parseSuppressions content) c = true) →
      runLint env fp content resolved config =
        runLint env fp content { resolved with analyze := none } config) := by
  refine ⟨?_, ?_, ?_, ?_, ?_⟩
  · intro h
    cases hrc : resolved.readability with
    | none =>
      have : ({ resolved with readability := none } : ResolvedChecks) = resolved := by
        cases resolved
        simp_all
      rw [this]
    | some rc =>
      have e1 : readabilityStep env (fp.endsWith ".md") (parseSuppressions content)
          content resolved.readability config = .ok (none, true) := by
        rw [hrc]; exact readabilityStep_skip h
      have e2 : readabilityStep env (fp.endsWith ".md") (parseSuppressions content)
          content none config = .ok (none, true) := rfl
      simp only [runLint, e1, e2]
  · intro h
    cases hrc : resolved.grammar with
    | none =>
      have : ({ resolved with grammar := none } : ResolvedChecks) = resolved := by
        cases resolved
        simp_all
      rw [this]
    | some gc =>
      have e1 : grammarStep env (fp.endsWith ".md") (parseSuppressions content)
          content resolved.grammar config = .ok (none, true) := by
        rw [hrc]; exact grammarStep_skip h
      have e2 : grammarStep env (fp.endsWith ".md") (parseSuppressions content)
          content none config = .ok (none, true) := rfl
      simp only [runLint, e1, e2]
  · intro h
    cases hrc : resolved.completeness with
    | none =>
      have : ({ resolved with completeness := none } : ResolvedChecks) = resolved := by
        cases resolved
        simp_all
      rw [this]
    | some cc =>
      have e1 : completenessStep env (parseSuppressions content)
          content resolved.completeness config = .ok (none, true) := by
        rw [hrc]; exact completenessStep_skip h
      have e2 : completenessStep env (parseSuppressions content)
          content none config = .ok (none, true) := rfl
      simp only [runLint, e1, e2]
  · intro h
    cases hrc : resolved.tokens with
    | none =>
      have : ({ resolved with tokens := none } : ResolvedChecks) = resolved := by
        cases resolved
        simp_all
      rw [this]
    | some tc =>
      have e1 : tokensStep env (parseSuppressions content)
          content resolved.tokens config = .ok (none, true) := by
        rw [hrc]; exact tokensStep_skip h
      have e2 : tokensStep env (parseSuppressions content)
          content none config = .ok (none, true) := rfl
      simp only [runLint, e1, e2]
  · intro ac cl hac hc he hall
    have e1 : analyzeStep env (fp.endsWith ".md") (parseSuppressions content)
        content resolved.analyze config = .ok (none, true) := by
      rw [hac]; exact analyzeStep_skip hc he hall
    have e2 : analyzeStep env (fp.endsWith ".md") (parseSuppressions content)
        content none config = .ok (none, true) := rfl
    simp only [runLint, e1, e2]

/-- Concrete content fully suppressing "readability", for the C1 witness. -/
def c1wContent : List Char :=
  "<!-- bito-lint disable readability -->\nThe cat sat.".data

/-- C1 witness: the amended theorem applied at a concrete run. -/
theorem runLint_full_suppression_skips_witness :
    isFullySuppressed (parseSuppressions c1wContent) "readability" = true ∧
    runLint stubEnv "doc.md" c1wContent
        { readability := some {}, tokens := some {} } {} =
      runLint stubEnv "doc.md" c1wContent
        { ({ readability := some {}, tokens := some {} } : ResolvedChecks) with
            readability := none } {} :=
  ⟨by decide,
   (runLint_full_suppression_skips stubEnv "doc.md" c1wContent
     { readability := some {}, tokens := some {} } {}).1 (by decide)⟩

/-- Concrete content fully suppressing the name "analyze", for the C1
counterexample. -/
def c1xContent : List Char :=
  "<!-- bito-lint disable analyze -->\nSome words.".data

/-- C1 counterexample: with an unclosed `disable analyze` directive (so the
suppression map fully suppresses the name "analyze") and `analyze`
configured with no explicit check list, `run_lint` still runs the analyze
check and stores its sub-report — the claim's "skipped entirely, sub-report
is None" fails for the analyze check type. -/
theorem runLint_disable_analyze_not_skipped :
    isFullySuppressed (parseSuppressions c1xContent) "analyze" = true ∧
    (runLint stubEnv "doc.md" c1xContent { analyze := some {} } {}).map
        (fun r => r.analyze.isSome) = .ok true :=
  ⟨by decide, by rfl⟩

/-! ### Specification-side characterization of rule resolution (C2)

`firstMax` is the claim's description of a winner: among declaration-ordered
candidates (matching rules configuring the check type, each with its
matching specificity), the earliest one attaining the maximum specificity.
The theorem below proves `resolve` computes exactly this, independently per
check type. -/

/-- The candidates for one check type: declaration-ordered matching rules
that configure it, paired with their matching specificity. -/
def candidates {α : Type} (proj : RuleChecks → Option α)
    (rules : List CompiledRule) (path : String) : List (α × Nat) :=
  rules.filterMap fun r =>
    match ruleSpec path r, proj r.checks with
    | some s, some cfg => some (cfg, s)
    | _, _ => none

/-- The maximum specificity among candidates. -/
def maxSpec {α : Type} : List (α × Nat) → Option Nat
  | [] => none
  | x :: xs =>
    match maxSpec xs with
    | none => some x.2
    | some m => some (max x.2 m)

/-- The configuration of the earliest-declared candidate attaining the
maximum specificity. -/
def firstMax {α : Type} (l : List (α × Nat)) : Option α :=
  match maxSpec l with
  | none => none
  | some m => (l.find? fun p => p.2 == m).map fun p => p.1

/-- One-field version of the `resolve` loop body. -/
def fieldStep {α : Type} (proj : RuleChecks → Option α) (path : String)
    (acc : Option α × Option Nat) (r : CompiledRule) : Option α × Option Nat :=
  match ruleSpec path r with
  | none => acc
  | some spec =>
    match proj r.checks with
    | none => acc
    | some cfg =>
      if isNoneOr acc.2 (fun prev => prev < spec) then (some cfg, some spec)
      else acc

/-- One-candidate version of the strict-improvement update. -/
def pickStep {α : Type} (acc : Option α × Option Nat) (x : α × Nat) :
    Option α × Option Nat :=
  if isNoneOr acc.2 (fun prev => prev < x.2) then (some x.1, some x.2) else acc

@[simp]
theorem updAnalyze_result_readability (spec : Nat) (r : CompiledRule) (st : ResolveState) :
    (updAnalyze spec r st).result.readability = st.result.readability := by
  unfold updAnalyze
  split <;> rfl

@[simp]
theorem updAnalyze_readabilitySpec (spec : Nat) (r : CompiledRule) (st : ResolveState) :
    (updAnalyze spec r st).readabilitySpec = st.readabilitySpec := by
  unfold updAnalyze
  split <;> rfl

@[simp]
theorem updAnalyze_result_grammar (spec : Nat) (r : CompiledRule) (st : ResolveState) :
    (updAnalyze spec r st).result.grammar = st.result.grammar := by
  unfold updAnalyze
  split <;> rfl

@[simp]
theorem updAnalyze_grammarSpec (spec : Nat) (r : CompiledRule) (st : ResolveState) :
    (updAnalyze spec r st).grammarSpec = st.grammarSpec := by
  unfold updAnalyze
  split <;> rfl

@[simp]
theorem updAnalyze_result_completeness (spec : Nat) (r : CompiledRule) (st : ResolveState) :
    (updAnalyze spec r st).result.completeness = st.result.completeness := by
  unfold updAnalyze
  split <;> rfl

@[simp]
theorem updAnalyze_completenessSpec (spec : Nat) (r : CompiledRule) (st : ResolveState) :
    (updAnalyze spec r st).completenessSpec = st.completenessSpec := by
  unfold updAnalyze
  split <;> rfl

@[simp]
theorem updAnalyze_result_tokens (spec : Nat) (r : CompiledRule) (st : ResolveState) :
    (updAnalyze spec r st).result.tokens = st.result.tokens := by
  unfold updAnalyze
  split <;> rfl

@[simp]
theorem updAnalyze_tokensSpec (spec : Nat) (r : CompiledRule) (st : ResolveState) :
    (updAnalyze spec r st).tokensSpec = st.tokensSpec := by
  unfold updAnalyze
  split <;> rfl

@[simp]
theorem updReadability_result_analyze (spec : Nat) (r : CompiledRule) (st : ResolveState) :
    (updReadability spec r st).result.analyze = st.result.analyze := by
  unfold updReadability
  split <;> rfl

@[simp]
theorem updReadability_analyzeSpec (spec : Nat) (r : CompiledRule) (st : ResolveState) :
    (updReadability spec r st).analyzeSpec = st.analyzeSpec := by
  unfold updReadability
  split <;> rfl

@[simp]
theorem updReadability_result_grammar (spec : Nat) (r : CompiledRule) (st : ResolveState) :
    (updReadability spec r st).result.grammar = st.result.grammar := by
  unfold updReadability
  split <;> rfl

@[simp]
theorem updReadability_grammarSpec (spec : Nat) (r : CompiledRule) (st : ResolveState) :
    (updReadability spec r st).grammarSpec = st.grammarSpec := by
  unfold updReadability
  split <;> rfl

@[simp]
theorem updReadability_result_completeness (spec : Nat) (r : CompiledRule) (st : ResolveState) :
    (updReadability spec r st).result.completeness = st.result.completeness := by
  unfold updReadability
  split <;> rfl

@[simp]
theorem updReadability_completenessSpec (spec : Nat) (r : CompiledRule) (st : ResolveState) :
    (updReadability spec r st).completenessSpec = st.completenessSpec := by
  unfold updReadability
  split <;> rfl

@[simp]
theorem updReadability_result_tokens (spec : Nat) (r : CompiledRule) (st : ResolveState) :
    (updReadability spec r st).result.tokens = st.result.tokens := by
  unfold updReadability
  split <;> rfl

@[simp]
theorem updReadability_tokensSpec (spec : Nat) (r : CompiledRule) (st : ResolveState) :
    (updReadability spec r st).tokensSpec = st.tokensSpec := by
  unfold updReadability
  split <;> rfl

@[simp]
theorem updGrammar_result_analyze (spec : Nat) (r : CompiledRule) (st : ResolveState) :
    (updGrammar spec r st).result.analyze = st.result.analyze := by
  unfold updGrammar
  split <;> rfl

@[simp]
theorem updGrammar_analyzeSpec (spec : Nat) (r : CompiledRule) (st : ResolveState) :
    (updGrammar spec r st).analyzeSpec = st.analyzeSpec := by
  unfold updGrammar
  split <;> rfl

@[simp]
theorem updGrammar_result_readability (spec : Nat) (r : CompiledRule) (st : ResolveState) :
    (updGrammar spec r st).result.readability = st.result.readability := by
  unfold updGrammar
  split <;> rfl

@[simp]
theorem updGrammar_readabilitySpec (spec : Nat) (r : CompiledRule) (st : ResolveState) :
    (updGrammar spec r st).readabilitySpec = st.readabilitySpec := by
  unfold updGrammar
  split <;> rfl

@[simp]
theorem updGrammar_result_completeness (spec : Nat) (r : CompiledRule) (st : ResolveState) :
    (updGrammar spec r st).result.completeness = st.result.completeness := by
  unfold updGrammar
  split <;> rfl

@[simp]
theorem updGrammar_completenessSpec (spec : Nat) (r : CompiledRule) (st : ResolveState) :
    (updGrammar spec r st).completenessSpec = st.completenessSpec := by
  unfold updGrammar
  split <;> rfl

@[simp]
theorem updGrammar_result_tokens (spec : Nat) (r : CompiledRule) (st : ResolveState) :
    (updGrammar spec r st).result.tokens = st.result.tokens := by
  unfold updGrammar
  split <;> rfl

@[simp]
theorem updGrammar_tokensSpec (spec : Nat) (r : CompiledRule) (st : ResolveState) :
    (updGrammar spec r st).tokensSpec = st.tokensSpec := by
  unfold updGrammar
  split <;> rfl

@[simp]
theorem updCompleteness_result_analyze (spec : Nat) (r : CompiledRule) (st : ResolveState) :
    (updCompleteness spec r st).result.analyze = st.result.analyze := by
  unfold updCompleteness
  split <;> rfl

@[simp]
theorem updCompleteness_analyzeSpec (spec : Nat) (r : CompiledRule) (st : ResolveState) :
    (updCompleteness spec r st).analyzeSpec = st.analyzeSpec := by
  unfold updCompleteness
  split <;> rfl

@[simp]
theorem updCompleteness_result_readability (spec : Nat) (r : CompiledRule) (st : ResolveState) :
    (updCompleteness spec r st).result.readability = st.result.readability := by
  unfold updCompleteness
  split <;> rfl

@[simp]
theorem updCompleteness_readabilitySpec (spec : Nat) (r : CompiledRule) (st : ResolveState) :
    (updCompleteness spec r st).readabilitySpec = st.readabilitySpec := by
  unfold updCompleteness
  split <;> rfl

@[simp]
theorem updCompleteness_result_grammar (spec : Nat) (r : CompiledRule) (st : ResolveState) :
    (updCompleteness spec r st).result.grammar = st.result.grammar := by
  unfold updCompleteness
  split <;> rfl

@[simp]
theorem updCompleteness_grammarSpec (spec : Nat) (r : CompiledRule) (st : ResolveState) :
    (updCompleteness spec r st).grammarSpec = st.grammarSpec := by
  unfold updCompleteness
  split <;> rfl

@[simp]
theorem updCompleteness_result_tokens (spec : Nat) (r : CompiledRule) (st : ResolveState) :
    (updCompleteness spec r st).result.tokens = st.result.tokens := by
  unfold updCompleteness
  split <;> rfl

@[simp]
theorem updCompleteness_tokensSpec (spec : Nat) (r : CompiledRule) (st : ResolveState) :
    (updCompleteness spec r st).tokensSpec = st.tokensSpec := by
  unfold updCompleteness
  split <;> rfl

@[simp]
theorem updTokens_result_analyze (spec : Nat) (r : CompiledRule) (st : ResolveState) :
    (updTokens spec r st).result.analyze = st.result.analyze := by
  unfold updTokens
  split <;> rfl

@[simp]
theorem updTokens_analyzeSpec (spec : Nat) (r : CompiledRule) (st : ResolveState) :
    (updTokens spec r st).analyzeSpec = st.analyzeSpec := by
  unfold updTokens
  split <;> rfl

@[simp]
theorem updTokens_result_readability (spec : Nat) (r : CompiledRule) (st : ResolveState) :
    (updTokens spec r st).result.readability = st.result.readability := by
  unfold updTokens
  split <;> rfl

@[simp]
theorem updTokens_readabilitySpec (spec : Nat) (r : CompiledRule) (st : ResolveState) :
    (updTokens spec r st).readabilitySpec = st.readabilitySpec := by
  unfold updTokens
  split <;> rfl

@[simp]
theorem updTokens_result_grammar (spec : Nat) (r : CompiledRule) (st : ResolveState) :
    (updTokens spec r st).result.grammar = st.result.grammar := by
  unfold updTokens
  split <;> rfl

@[simp]
theorem updTokens_grammarSpec (spec : Nat) (r : CompiledRule) (st : ResolveState) :
    (updTokens spec r st).grammarSpec = st.grammarSpec := by
  unfold updTokens
  split <;> rfl

@[simp]
theorem updTokens_result_completeness (spec : Nat) (r : CompiledRule) (st : ResolveState) :
    (updTokens spec r st).result.completeness = st.result.completeness := by
  unfold updTokens
  split <;> rfl

@[simp]
theorem updTokens_completenessSpec (spec : Nat) (r : CompiledRule) (st : ResolveState) :
    (updTokens spec r st).completenessSpec = st.completenessSpec := by
  unfold updTokens
  split <;> rfl

theorem updAnalyze_proj (spec : Nat) (r : CompiledRule) (st : ResolveState) :
    ((updAnalyze spec r st).result.analyze, (updAnalyze spec r st).analyzeSpec) =
      (match r.checks.analyze with
       | none => (st.result.analyze, st.analyzeSpec)
       | some _ =>
         if isNoneOr st.analyzeSpec (fun prev => prev < spec) then
           (r.checks.analyze, some spec)
         else (st.result.analyze, st.analyzeSpec)) := by
  unfold updAnalyze
  cases h : r.checks.analyze <;> simp [h] <;> split <;> simp [h]

theorem updReadability_proj (spec : Nat) (r : CompiledRule) (st : ResolveState) :
    ((updReadability spec r st).result.readability, (updReadability spec r st).readabilitySpec) =
      (match r.checks.readability with
       | none => (st.result.readability, st.readabilitySpec)
       | some _ =>
         if isNoneOr st.readabilitySpec (fun prev => prev < spec) then
           (r.checks.readability, some spec)
         else (st.result.readability, st.readabilitySpec)) := by
  unfold updReadability
  cases h : r.checks.readability <;> simp [h] <;> split <;> simp [h]

theorem updGrammar_proj (spec : Nat) (r : CompiledRule) (st : ResolveState) :
    ((updGrammar spec r st).result.grammar, (updGrammar spec r st).grammarSpec) =
      (match r.checks.grammar with
       | none => (st.result.grammar, st.grammarSpec)
       | some _ =>
         if isNoneOr st.grammarSpec (fun prev => prev < spec) then
           (r.checks.grammar, some spec)
         else (st.result.grammar, st.grammarSpec)) := by
  unfold updGrammar
  cases h : r.checks.grammar <;> simp [h] <;> split <;> simp [h]

theorem updCompleteness_proj (spec : Nat) (r : CompiledRule) (st : ResolveState) :
    ((updCompleteness spec r st).result.completeness, (updCompleteness spec r st).completenessSpec) =
      (match r.checks.completeness with
       | none => (st.result.completeness, st.completenessSpec)
       | some _ =>
         if isNoneOr st.completenessSpec (fun prev => prev < spec) then
           (r.checks.completeness, some spec)
         else (st.result.completeness, st.completenessSpec)) := by
  unfold updCompleteness
  cases h : r.checks.completeness <;> simp [h] <;> split <;> simp [h]

theorem updTokens_proj (spec : Nat) (r : CompiledRule) (st : ResolveState) :
    ((updTokens spec r st).result.tokens, (updTokens spec r st).tokensSpec) =
      (match r.checks.tokens with
       | none => (st.result.tokens, st.tokensSpec)
       | some _ =>
         if isNoneOr st.tokensSpec (fun prev => prev < spec) then
           (r.checks.tokens, some spec)
         else (st.result.tokens, st.tokensSpec)) := by
  unfold updTokens
  cases h : r.checks.tokens <;> simp [h] <;> split <;> simp [h]

theorem resolveStep_proj (path : String) (st : ResolveState) (r : CompiledRule) :
    ((resolveStep path st r).result.analyze, (resolveStep path st r).analyzeSpec) =
      fieldStep (fun rc => rc.analyze) path (st.result.analyze, st.analyzeSpec) r ∧
    ((resolveStep path st r).result.readability, (resolveStep path st r).readabilitySpec) =
      fieldStep (fun rc => rc.readability) path (st.result.readability, st.readabilitySpec) r ∧
    ((resolveStep path st r).result.grammar, (resolveStep path st r).grammarSpec) =
      fieldStep (fun rc => rc.grammar) path (st.result.grammar, st.grammarSpec) r ∧
    ((resolveStep path st r).result.completeness, (resolveStep path st r).completenessSpec) =
      fieldStep (fun rc => rc.completeness) path (st.result.completeness, st.completenessSpec) r ∧
    ((resolveStep path st r).result.tokens, (resolveStep path st r).tokensSpec) =
      fieldStep (fun rc => rc.tokens) path (st.result.tokens, st.tokensSpec) r := by
  cases hs : ruleSpec path r with
  | none => simp [resolveStep, fieldStep, hs]
  | some spec =>
    refine ⟨?_, ?_, ?_, ?_, ?_⟩
    · simp only [resolveStep, hs, updReadability_result_analyze, updReadability_analyzeSpec, updGrammar_result_analyze, updGrammar_analyzeSpec, updCompleteness_result_analyze, updCompleteness_analyzeSpec, updTokens_result_analyze, updTokens_analyzeSpec]
      rw [updAnalyze_proj]
      simp only [fieldStep, hs]
      cases h : r.checks.analyze <;> simp [h]
    · simp only [resolveStep, hs, updAnalyze_result_readability, updAnalyze_readabilitySpec, updGrammar_result_readability, updGrammar_readabilitySpec, updCompleteness_result_readability, updCompleteness_readabilitySpec, updTokens_result_readability, updTokens_readabilitySpec]
      rw [updReadability_proj]
      simp only [fieldStep, hs]
      cases h : r.checks.readability <;> simp [h]
    · simp only [resolveStep, hs, updAnalyze_result_grammar, updAnalyze_grammarSpec, updReadability_result_grammar, updReadability_grammarSpec, updCompleteness_result_grammar, updCompleteness_grammarSpec, updTokens_result_grammar, updTokens_grammarSpec]
      rw [updGrammar_proj]
      simp only [fieldStep, hs]
      cases h : r.checks.grammar <;> simp [h]
    · simp only [resolveStep, hs, updAnalyze_result_completeness, updAnalyze_completenessSpec, updReadability_result_completeness, updReadability_completenessSpec, updGrammar_result_completeness, updGrammar_completenessSpec, updTokens_result_completeness, updTokens_completenessSpec]
      rw [updCompleteness_proj]
      simp only [fieldStep, hs]
      cases h : r.checks.completeness <;> simp [h]
    · simp only [resolveStep, hs, updAnalyze_result_tokens, updAnalyze_tokensSpec, updReadability_result_tokens, updReadability_tokensSpec, updGrammar_result_tokens, updGrammar_tokensSpec, updCompleteness_result_tokens, updCompleteness_tokensSpec]
      rw [updTokens_proj]
      simp only [fieldStep, hs]
      cases h : r.checks.tokens <;> simp [h]

theorem foldl_resolveStep_proj {α : Type} {path : String} (proj : RuleChecks → Option α)
    (projR : ResolvedChecks → Option α) (projS : ResolveState → Option Nat)
    (hstep : ∀ st r,
      ((resolveStep path st r).result |> projR, (resolveStep path st r) |> projS) =
        fieldStep proj path (st.result |> projR, st |> projS) r)
    (rules : List CompiledRule) (st : ResolveState) :
    ((rules.foldl (resolveStep path) st).result |> projR,
      (rules.foldl (resolveStep path) st) |> projS) =
      rules.foldl (fieldStep proj path) (st.result |> projR, st |> projS) := by
  induction rules generalizing st with
  | nil => rfl
  | cons r rs ih =>
    simp only [List.foldl_cons]
    rw [ih, hstep]

theorem foldl_fieldStep_candidates {α : Type} (proj : RuleChecks → Option α)
    (path : String) (rules : List CompiledRule) (acc : Option α × Option Nat) :
    rules.foldl (fieldStep proj path) acc =
      (candidates proj rules path).foldl pickStep acc := by
  induction rules generalizing acc with
  | nil => rfl
  | cons r rs ih =>
    simp only [List.foldl_cons, candidates, List.filterMap_cons]
    cases hs : ruleSpec path r with
    | none => simp only [fieldStep, hs]; exact ih _
    | some spec =>
      cases hp : proj r.checks with
      | none => simp only [fieldStep, hs, hp]; exact ih _
      | some cfg =>
        simp only [fieldStep, hs, hp, List.foldl_cons]
        rw [ih]
        rfl

theorem maxSpec_eq_none {α : Type} {l : List (α × Nat)} :
    maxSpec l = none ↔ l = [] := by
  cases l with
  | nil => simp [maxSpec]
  | cons x xs =>
    simp only [maxSpec]
    constructor
    · intro h
      cases hm : maxSpec xs <;> rw [hm] at h <;> simp at h
    · intro h
      simp at h

theorem maxSpec_append {α : Type} (l : List (α × Nat)) (x : α × Nat) :
    maxSpec (l ++ [x]) =
      some (match maxSpec l with
            | none => x.2
            | some m => max m x.2) := by
  induction l with
  | nil => rfl
  | cons y l ih =>
    simp only [List.cons_append, maxSpec, List.append_eq]
    rw [ih]
    cases hm : maxSpec l with
    | none => simp [hm]
    | some m =>
      simp only [hm]
      rw [Nat.max_assoc]

theorem mem_le_maxSpec {α : Type} {l : List (α × Nat)} {m : Nat}
    (hm : maxSpec l = some m) : ∀ p ∈ l, p.2 ≤ m := by
  induction l generalizing m with
  | nil => simp
  | cons x xs ih =>
    intro p hp
    simp only [maxSpec] at hm
    cases hx : maxSpec xs with
    | none =>
      rw [hx] at hm
      simp only [Option.some.injEq] at hm
      have hxs : xs = [] := maxSpec_eq_none.mp hx
      subst hxs
      simp at hp
      subst hp
      omega
    | some mm =>
      rw [hx] at hm
      simp only [Option.some.injEq] at hm
      have h1 : x.2 ≤ m := by rw [← hm]; exact Nat.le_max_left _ _
      have h2 : mm ≤ m := by rw [← hm]; exact Nat.le_max_right _ _
      rcases List.mem_cons.mp hp with hpe | hpe
      · subst hpe
        exact h1
      · exact le_trans (ih hx p hpe) h2

theorem maxSpec_exists_mem {α : Type} {l : List (α × Nat)} {m : Nat}
    (hm : maxSpec l = some m) : ∃ p ∈ l, p.2 = m := by
  induction l generalizing m with
  | nil => simp [maxSpec] at hm
  | cons x xs ih =>
    simp only [maxSpec] at hm
    cases hx : maxSpec xs with
    | none =>
      rw [hx] at hm
      simp at hm
      exact ⟨x, by simp, hm⟩
    | some mm =>
      rw [hx] at hm
      simp only [Option.some.injEq] at hm
      rcases Nat.le_total x.2 mm with hle | hle
      · rw [Nat.max_eq_right hle] at hm
        obtain ⟨p, hpmem, hpv⟩ := ih (hx.trans (by rw [hm]))
        exact ⟨p, by simp [hpmem], hpv⟩
      · rw [Nat.max_eq_left hle] at hm
        exact ⟨x, by simp, hm⟩

theorem foldl_pickStep_eq {α : Type} (l : List (α × Nat)) :
    l.foldl pickStep ((none, none) : Option α × Option Nat) =
      (firstMax l, maxSpec l) := by
  induction l using List.reverseRecOn with
  | nil => rfl
  | append_singleton l x ih =>
    rw [List.foldl_append, ih]
    simp only [List.foldl_cons, List.foldl_nil]
    cases hm : maxSpec l with
    | none =>
      have hl : l = [] := maxSpec_eq_none.mp hm
      subst hl
      simp [pickStep, isNoneOr, firstMax, maxSpec]
    | some m =>
      by_cases hlt : m < x.2
      · have hmax : maxSpec (l ++ [x]) = some x.2 := by
          rw [maxSpec_append, hm]
          simp
          omega
        have hfind : l.find? (fun p => p.2 == x.2) = none := by
          rw [List.find?_eq_none]
          intro p hp
          have := mem_le_maxSpec hm p hp
          simp
          omega
        simp only [pickStep, isNoneOr, hm, hlt, decide_True, if_true]
        simp only [firstMax, hmax]
        rw [List.find?_append, hfind]
        simp
      · have hmax : maxSpec (l ++ [x]) = some m := by
          rw [maxSpec_append, hm]
          simp
          omega
        have hsome : (l.find? (fun p => p.2 == m)).isSome := by
          obtain ⟨p, hpmem, hpv⟩ := maxSpec_exists_mem hm
          rw [List.find?_isSome]
          exact ⟨p, hpmem, by simp [hpv]⟩
        simp only [pickStep, isNoneOr, hlt, decide_False, if_false]
        simp only [firstMax, hmax, hm]
        rw [List.find?_append]
        cases hf : l.find? (fun p => p.2 == m) with
        | none => rw [hf] at hsome; simp at hsome
        | some y => simp

/-- C2: `RuleSet::resolve` determines each check type's winner independently
of the others: for each of the five check types, the resolved configuration
is exactly that of the earliest-declared matching rule attaining the
maximum specificity among rules configuring that check type (so a later
rule wins only with strictly greater specificity, ties keep the earliest,
and different check types may be won by different rules). -/
theorem resolve_independent_firstMax (rules : List CompiledRule) (path : String) :
    (resolve rules path).analyze =
      firstMax (candidates (fun rc => rc.analyze) rules path) ∧
    (resolve rules path).readability =
      firstMax (candidates (fun rc => rc.readability) rules path) ∧
    (resolve rules path).grammar =
      firstMax (candidates (fun rc => rc.grammar) rules path) ∧
    (resolve rules path).completeness =
      firstMax (candidates (fun rc => rc.completeness) rules path) ∧
    (resolve rules path).tokens =
      firstMax (candidates (fun rc => rc.tokens) rules path) := by
  refine ⟨?_, ?_, ?_, ?_, ?_⟩
  · have h := @foldl_resolveStep_proj _ path (fun rc => rc.analyze)
      (fun rc => rc.analyze) (fun st => st.analyzeSpec)
      (fun st r => (resolveStep_proj path st r).1) rules
      ⟨{}, none, none, none, none, none⟩
    rw [foldl_fieldStep_candidates, foldl_pickStep_eq] at h
    exact congrArg Prod.fst h
  · have h := @foldl_resolveStep_proj _ path (fun rc => rc.readability)
      (fun rc => rc.readability) (fun st => st.readabilitySpec)
      (fun st r => (resolveStep_proj path st r).2.1) rules
      ⟨{}, none, none, none, none, none⟩
    rw [foldl_fieldStep_candidates, foldl_pickStep_eq] at h
    exact congrArg Prod.fst h
  · have h := @foldl_resolveStep_proj _ path (fun rc => rc.grammar)
      (fun rc => rc.grammar) (fun st => st.grammarSpec)
      (fun st r => (resolveStep_proj path st r).2.2.1) rules
      ⟨{}, none, none, none, none, none⟩
    rw [foldl_fieldStep_candidates, foldl_pickStep_eq] at h
    exact congrArg Prod.fst h
  · have h := @foldl_resolveStep_proj _ path (fun rc => rc.completeness)
      (fun rc => rc.completeness) (fun st => st.completenessSpec)
      (fun st r => (resolveStep_proj path st r).2.2.2.1) rules
      ⟨{}, none, none, none, none, none⟩
    rw [foldl_fieldStep_candidates, foldl_pickStep_eq] at h
    exact congrArg Prod.fst h
  · have h := @foldl_resolveStep_proj _ path (fun rc => rc.tokens)
      (fun rc => rc.tokens) (fun st => st.tokensSpec)
      (fun st r => (resolveStep_proj path st r).2.2.2.2) rules
      ⟨{}, none, none, none, none, none⟩
    rw [foldl_fieldStep_candidates, foldl_pickStep_eq] at h
    exact congrArg Prod.fst h

theorem dropWhile_head_false {p : Char → Bool} {l : List Char} {c : Char}
    {rest : List Char} (h : l.dropWhile p = c :: rest) : p c = false := by
  induction l with
  | nil => simp [List.dropWhile] at h
  | cons a l ih =>
    rw [List.dropWhile_cons] at h
    split at h
    · exact ih h
    · rename_i hpa
      obtain ⟨h1, -⟩ := List.cons.injEq .. ▸ h
      subst h1
      simpa using hpa

theorem dropWhile_of_head_false {p : Char → Bool} {l : List Char}
    (h : ∀ c rest, l = c :: rest → p c = false) : l.dropWhile p = l := by
  cases l with
  | nil => rfl
  | cons c rest =>
    rw [List.dropWhile_cons, h c rest rfl]
    simp

theorem dropWhile_idem (p : Char → Bool) (l : List Char) :
    (l.dropWhile p).dropWhile p = l.dropWhile p := by
  apply dropWhile_of_head_false
  intro c rest h
  exact dropWhile_head_false h

theorem rustTrim_dropWhile (l : List Char) :
    (rustTrim l).dropWhile rustIsWs = rustTrim l := by
  apply dropWhile_of_head_false
  intro c rest hc
  have hu_ne : (l.dropWhile rustIsWs).reverse.dropWhile rustIsWs ≠ [] := by
    intro h0
    unfold rustTrim at hc
    rw [h0] at hc
    simp at hc
  have h1 : (rustTrim l).head? = some c := by rw [hc]; rfl
  unfold rustTrim at h1
  rw [List.head?_reverse] at h1
  have h2 : ((l.dropWhile rustIsWs).reverse.dropWhile rustIsWs).getLast? =
      (l.dropWhile rustIsWs).reverse.getLast? := by
    conv_rhs => rw [← List.takeWhile_append_dropWhile
      (p := rustIsWs) (l := (l.dropWhile rustIsWs).reverse)]
    rw [List.getLast?_append_of_ne_nil _ hu_ne]
  rw [h2, List.getLast?_reverse] at h1
  cases hae : l.dropWhile rustIsWs with
  | nil =>
    rw [hae] at h1
    simp at h1
  | cons c0 rest0 =>
    rw [hae] at h1
    simp at h1
    subst h1
    exact dropWhile_head_false hae

theorem rustTrim_idem (l : List Char) : rustTrim (rustTrim l) = rustTrim l := by
  conv_lhs => rw [show rustTrim (rustTrim l) =
    (((rustTrim l).dropWhile rustIsWs).reverse.dropWhile rustIsWs).reverse from rfl]
  rw [rustTrim_dropWhile]
  rw [show (rustTrim l).reverse =
    ((l.dropWhile rustIsWs).reverse.dropWhile rustIsWs).reverse.reverse from rfl]
  rw [List.reverse_reverse, dropWhile_idem]
  rfl

theorem splitStep_invariant (text : List Char) (st : List (List Char) × List Char)
    (p : Nat × Char) (h : ∀ s ∈ st.1, 3 ≤ utf8Len s ∧ rustTrim s = s) :
    ∀ s ∈ (splitStep text st p).1, 3 ≤ utf8Len s ∧ rustTrim s = s := by
  intro s hs
  simp only [splitStep] at hs
  split at hs
  · split at hs
    · split at hs
      · rename_i hlen
        rcases List.mem_append.mp hs with hs | hs
        · exact h s hs
        · simp at hs
          subst hs
          exact ⟨hlen, rustTrim_idem _⟩
      · exact h s hs
    · exact h s hs
  · exact h s hs

theorem foldl_splitStep_invariant (text : List Char)
    (l : List (Nat × Char)) (st : List (List Char) × List Char)
    (h : ∀ s ∈ st.1, 3 ≤ utf8Len s ∧ rustTrim s = s) :
    ∀ s ∈ (l.foldl (splitStep text) st).1, 3 ≤ utf8Len s ∧ rustTrim s = s := by
  induction l generalizing st with
  | nil => exact h
  | cons p l ih =>
    rw [List.foldl_cons]
    exact ih _ (splitStep_invariant text st p h)

/-- C6 (amended): every sentence emitted by `split_sentences` is trimmed and
has UTF-8 byte length (Rust `String::len`) at least 3. (The original
claim's "at least 3 characters" fails on multi-byte input, see the
counterexample.) -/
theorem splitSentences_min_length (text : List Char) :
    ∀ s ∈ splitSentences text, 3 ≤ utf8Len s ∧ rustTrim s = s := by
  intro s hs
  unfold splitSentences at hs
  split at hs
  · simp at hs
  · rcases hfold : text.enum.foldl (splitStep text) ([], []) with ⟨sentences, current⟩
    rw [hfold] at hs
    simp only at hs
    have hinv := foldl_splitStep_invariant text text.enum ([], []) (by simp)
    rw [hfold] at hinv
    split at hs
    · rename_i hlen
      rcases List.mem_append.mp hs with hs | hs
      · exact hinv s hs
      · simp at hs
        subst hs
        exact ⟨hlen, rustTrim_idem _⟩
    · exact hinv s hs

/-- C6 witness: the amended theorem applied to a concrete text and
sentence. -/
theorem splitSentences_min_length_witness :
    "Wow!".data ∈ splitSentences "Wow! Nice.".data ∧
    3 ≤ utf8Len "Wow!".data ∧ rustTrim "Wow!".data = "Wow!".data :=
  ⟨by decide, splitSentences_min_length "Wow! Nice.".data "Wow!".data (by decide)⟩

/-- C6 counterexample: on the input `"€!"` (the euro sign is a 3-byte UTF-8
character), `split_sentences` emits the sentence `"€!"`, whose trimmed
length in characters is 2 < 3 — the minimum-length guard in the code
compares UTF-8 byte length (`String::len`), not characters, so the claim's
"trimmed length at least 3 characters" fails. -/
theorem splitSentences_short_sentence :
    splitSentences "€!".data = [['€', '!']] ∧
    (rustTrim ['€', '!']).length = 2 := by
  constructor
  · decide
  · decide

/-- C7 (amended): during `split_sentences`, a `!` or `?` that is not at end
of text is a boundary unless the first non-whitespace character after it is
a quote (`"` or `'`) whose next character is **not uppercase** — so a quote
followed by a space, a digit, punctuation or end of text also suppresses
the boundary, not only a quote followed by a lowercase letter as the
original claim states. -/
theorem bang_question_boundary (ctx : SentenceContext) (current : List Char)
    (hp : ctx.punctuation = '!' ∨ ctx.punctuation = '?')
    (he : ctx.is_end_of_text = false) :
    isSentenceBoundary ctx current = false ↔
      ((ctx.char_after = some '"' ∨ ctx.char_after = some '\'') ∧
        ¬∃ c, ctx.text_after.get? 1 = some c ∧ rustIsUpper c = true) := by
  unfold isSentenceBoundary
  rw [he]
  have hp' : (ctx.punctuation = '!' || ctx.punctuation = '?') = true := by
    rcases hp with hp | hp <;> simp [hp]
  simp only [Bool.false_eq_true, if_false, hp', if_true]
  unfold checkNextCharCapitalization
  cases hca : ctx.char_after with
  | none => simp
  | some nc =>
    by_cases hup : rustIsUpper nc = true
    · have hq : nc ≠ '"' := by
        intro h0
        subst h0
        simp [rustIsUpper] at hup
      have hq' : nc ≠ '\'' := by
        intro h0
        subst h0
        simp [rustIsUpper] at hup
      simp [hup, hq, hq']
    · by_cases hquote : (nc = '"' || nc = '\'') = true
      · simp only [hup, if_false, Bool.not_eq_true] at *
        simp only [hup, hquote, if_true, Bool.not_eq_true]
        cases hget : ctx.text_after.get? 1 with
        | none => simp [hget, hquote]
          <;> rcases Bool.or_eq_true .. |>.mp hquote with h | h <;> simp_all
        | some c =>
          cases hc : rustIsUpper c <;>
            simp [hget, hc] <;>
            rcases Bool.or_eq_true .. |>.mp hquote with h | h <;> simp_all
      · have h1 : nc ≠ '"' := by
          intro h0
          subst h0
          simp at hquote
        have h2 : nc ≠ '\'' := by
          intro h0
          subst h0
          simp at hquote
        simp [hup, h1, h2]

/-- C7 witness: the amended theorem applied at a concrete context (a `!`
followed by a quote whose next character is lowercase). -/
theorem bang_question_boundary_witness :
    ((⟨'!', [], some '"', ['"', 's'], false⟩ : SentenceContext).punctuation = '!' ∨
      (⟨'!', [], some '"', ['"', 's'], false⟩ : SentenceContext).punctuation = '?') ∧
    (⟨'!', [], some '"', ['"', 's'], false⟩ : SentenceContext).is_end_of_text = false ∧
    (isSentenceBoundary ⟨'!', [], some '"', ['"', 's'], false⟩ [] = false ↔
      (((⟨'!', [], some '"', ['"', 's'], false⟩ : SentenceContext).char_after = some '"' ∨
        (⟨'!', [], some '"', ['"', 's'], false⟩ : SentenceContext).char_after = some '\'') ∧
        ¬∃ c, (⟨'!', [], some '"', ['"', 's'], false⟩ : SentenceContext).text_after.get? 1 =
          some c ∧ rustIsUpper c = true)) :=
  ⟨Or.inl rfl, rfl,
   bang_question_boundary ⟨'!', [], some '"', ['"', 's'], false⟩ [] (Or.inl rfl) rfl⟩

/-- The concrete input for the C7 counterexample. -/
def c7Text : List Char := "He said \"Stop!\" 9 times.".data

/-- C7 counterexample: in `"He said \"Stop!\" 9 times."` the `!` at index 13
is not at end of text and is followed by a closing quote whose next
character is a space — not a lowercase letter — yet `is_sentence_boundary`
answers `false` and `split_sentences` produces a single sentence. The
original claim predicts a boundary (two sentences) for every
quote-then-non-lowercase case. -/
theorem bang_question_quote_space_not_boundary :
    (extractContext c7Text 13).punctuation = '!' ∧
    (extractContext c7Text 13).is_end_of_text = false ∧
    (extractContext c7Text 13).char_after = some '"' ∧
    (extractContext c7Text 13).text_after.get? 1 = some ' ' ∧
    rustIsLower ' ' = false ∧
    isSentenceBoundary (extractContext c7Text 13) "He said \"Stop!".data = false ∧
    splitSentences c7Text = [c7Text] := by
  refine ⟨by decide, by decide, by decide, by decide, by decide, by decide, by decide⟩

theorem lookupRanges_entryPush (m : SuppressionMap) (c : String) (r : Nat × Nat)
    (x : String) :
    lookupRanges (entryPush m c r) x =
      if x = c then some ((lookupRanges m c).getD [] ++ [r])
      else lookupRanges m x := by
  induction m with
  | nil =>
    by_cases hx : x = c
    · subst hx; simp [entryPush, lookupRanges]
    · simp [entryPush, lookupRanges, hx, Ne.symm hx]
  | cons p rest ih =>
    rcases p with ⟨k, v⟩
    by_cases hkc : k = c <;> by_cases hkx : k = x
    · subst hkc; subst hkx
      simp [entryPush, lookupRanges]
    · subst hkc
      simp [entryPush, lookupRanges, Ne.symm hkx, hkx]
    · subst hkx
      simp [entryPush, lookupRanges, hkc, Ne.symm hkc]
    · simp [entryPush, lookupRanges, hkc, hkx, ih]

theorem lookupRanges_entryClear (m : SuppressionMap) (c : String) (x : String) :
    lookupRanges (entryClear m c) x =
      if x = c then some [] else lookupRanges m x := by
  induction m with
  | nil =>
    by_cases hx : x = c
    · subst hx; simp [entryClear, lookupRanges]
    · simp [entryClear, lookupRanges, hx, Ne.symm hx]
  | cons p rest ih =>
    rcases p with ⟨k, v⟩
    by_cases hkc : k = c <;> by_cases hkx : k = x
    · subst hkc; subst hkx
      simp [entryClear, lookupRanges]
    · subst hkc
      simp [entryClear, lookupRanges, Ne.symm hkx, hkx]
    · subst hkx
      simp [entryClear, lookupRanges, hkc, Ne.symm hkc]
    · simp [entryClear, lookupRanges, hkc, hkx, ih]

theorem lookupOpen_insertOpen (o : OpenSet) (c : String) (line : Nat) (x : String) :
    lookupOpen (insertOpen o c line) x =
      if x = c then some line else lookupOpen o x := by
  induction o with
  | nil =>
    by_cases hx : x = c
    · subst hx; simp [insertOpen, lookupOpen]
    · simp [insertOpen, lookupOpen, hx, Ne.symm hx]
  | cons p rest ih =>
    rcases p with ⟨k, v⟩
    by_cases hkc : k = c <;> by_cases hkx : k = x
    · subst hkc; subst hkx
      simp [insertOpen, lookupOpen]
    · subst hkc
      simp [insertOpen, lookupOpen, Ne.symm hkx, hkx]
    · subst hkx
      simp [insertOpen, lookupOpen, hkc, Ne.symm hkc]
    · simp [insertOpen, lookupOpen, hkc, hkx, ih]

theorem lookupOpen_removeOpen (o : OpenSet) (c : String) (x : String) :
    lookupOpen (removeOpen o c).2 x =
      if x = c then none else lookupOpen o x := by
  induction o with
  | nil =>
    by_cases hx : x = c <;> simp [removeOpen, lookupOpen, hx]
  | cons p rest ih =>
    rcases p with ⟨k, v⟩
    by_cases hkc : k = c <;> by_cases hkx : k = x
    · subst hkc; subst hkx
      simp [removeOpen, lookupOpen] at ih ⊢
      exact ih
    · subst hkc
      simp [removeOpen, lookupOpen, Ne.symm hkx, hkx] at ih ⊢
      exact ih
    · subst hkx
      simp [removeOpen, lookupOpen, hkc, Ne.symm hkc] at ih ⊢
    · simp [removeOpen, lookupOpen, hkc, hkx, Ne.symm hkx] at ih ⊢
      exact ih

theorem lookupRanges_finalize_cases (o : OpenSet) (m : SuppressionMap) (x : String) :
    lookupRanges (finalizeOpen o m) x = lookupRanges m x ∨
      lookupRanges (finalizeOpen o m) x = some [] := by
  induction o generalizing m with
  | nil => exact Or.inl rfl
  | cons p rest ih =>
    rcases p with ⟨k, v⟩
    have : finalizeOpen ((k, v) :: rest) m = finalizeOpen rest (entryClear m k) := rfl
    rw [this]
    rcases ih (entryClear m k) with h | h
    · rw [h, lookupRanges_entryClear]
      by_cases hx : x = k
      · exact Or.inr (by simp [hx])
      · exact Or.inl (by simp [hx])
    · exact Or.inr h

theorem lookupRanges_finalize_of_not_open (o : OpenSet) (m : SuppressionMap)
    (x : String) (h : lookupOpen o x = none) :
    lookupRanges (finalizeOpen o m) x = lookupRanges m x := by
  induction o generalizing m with
  | nil => rfl
  | cons p rest ih =>
    rcases p with ⟨k, v⟩
    have hk : ¬ k = x := by
      intro h0
      subst h0
      simp [lookupOpen] at h
    have h' : lookupOpen rest x = none := by
      simpa [lookupOpen, hk] using h
    have : finalizeOpen ((k, v) :: rest) m = finalizeOpen rest (entryClear m k) := rfl
    rw [this, ih _ h', lookupRanges_entryClear]
    simp [Ne.symm hk]

/-- Well-formedness of a suppression map: every stored range has
`1 ≤ start ≤ end`. -/
def RangesGood (m : SuppressionMap) : Prop :=
  ∀ c rs, lookupRanges m c = some rs → ∀ r ∈ rs, 1 ≤ r.1 ∧ r.1 ≤ r.2

/-- Well-formedness of the open-set relative to the current line: every
open start is a positive line number not beyond the current line. -/
def OpensGood (o : OpenSet) (n : Nat) : Prop :=
  ∀ c s, lookupOpen o c = some s → 1 ≤ s ∧ s ≤ n

/-- The event list is chronological starting no earlier than `n`. -/
def EventsOK : Nat → List Event → Prop
  | _, [] => True
  | n, e :: es => n ≤ e.line ∧ EventsOK e.line es

theorem EventsOK_weaken : ∀ {l : List Event} {m k : Nat}, k ≤ m →
    EventsOK m l → EventsOK k l := by
  intro l
  cases l with
  | nil => intro m k _ _; trivial
  | cons e es =>
    intro m k hk h
    exact ⟨le_trans hk h.1, h.2⟩

theorem OpensGood_weaken {o : OpenSet} {n m : Nat} (h : OpensGood o n)
    (hnm : n ≤ m) : OpensGood o m :=
  fun c s hc => ⟨(h c s hc).1, le_trans (h c s hc).2 hnm⟩

theorem applyDisable_snd (line : Nat) (checks : List String) (st : ParseState) :
    (applyDisable line checks st).2 = st.2 := by
  induction checks generalizing st with
  | nil => rfl
  | cons c cs ih => exact ih _

theorem applyDisable_good {line : Nat} {checks : List String} {st : ParseState}
    {n : Nat} (h1 : 1 ≤ line) (hn : n ≤ line) (ho : OpensGood st.1 n) :
    OpensGood (applyDisable line checks st).1 line := by
  induction checks generalizing st n with
  | nil => exact OpensGood_weaken ho hn
  | cons c cs ih =>
    refine ih (n := line) le_rfl ?_
    intro x s hx
    rw [lookupOpen_insertOpen] at hx
    by_cases hxc : x = c
    · rw [if_pos hxc] at hx
      cases hx
      omega
    · rw [if_neg hxc] at hx
      have := ho x s hx
      omega

theorem applyEnable_good {line : Nat} {checks : List String} {st : ParseState}
    {n : Nat} (h1 : 1 ≤ line) (hn : n ≤ line) (ho : OpensGood st.1 n)
    (hr : RangesGood st.2) :
    OpensGood (applyEnable line checks st).1 line ∧
      RangesGood (applyEnable line checks st).2 := by
  induction checks generalizing st n with
  | nil => exact ⟨OpensGood_weaken ho hn, hr⟩
  | cons c cs ih =>
    simp only [applyEnable, List.foldl_cons] at *
    rcases hrm : removeOpen st.1 c with ⟨found, o'⟩
    have ho' : OpensGood o' n := by
      intro x s hx
      have : o' = (removeOpen st.1 c).2 := by rw [hrm]
      rw [this, lookupOpen_removeOpen] at hx
      by_cases hxc : x = c
      · rw [if_pos hxc] at hx; cases hx
      · rw [if_neg hxc] at hx; exact ho x s hx
    cases found with
    | none => exact ih (n := n) hn ho' hr
    | some s0 =>
      have hfst : (removeOpen st.1 c).1 = some s0 := by rw [hrm]
      have hs0 : 1 ≤ s0 ∧ s0 ≤ n := ho c s0 hfst
      refine ih (n := n) hn ho' ?_
      intro x rs hx
      rw [lookupRanges_entryPush] at hx
      by_cases hxc : x = c
      · rw [if_pos hxc] at hx
        cases hx
        intro r hrmem
        rcases List.mem_append.mp hrmem with hrmem | hrmem
        · rcases hlk : lookupRanges st.2 c with _ | old
        <;> rw [hlk] at hrmem
          · simp at hrmem
          · exact hr c old hlk r (by simpa using hrmem)
        · simp at hrmem
          subst hrmem
          exact ⟨hs0.1, by omega⟩
      · rw [if_neg hxc] at hx
        exact hr x rs hx

theorem applyDNL_fst (line : Nat) (checks : List String) (st : ParseState) :
    (applyDNL line checks st).1 = st.1 := by
  induction checks generalizing st with
  | nil => rfl
  | cons c cs ih => exact ih _

theorem applyDNL_good {line : Nat} {checks : List String} {st : ParseState}
    (hr : RangesGood st.2) : RangesGood (applyDNL line checks st).2 := by
  induction checks generalizing st with
  | nil => exact hr
  | cons c cs ih =>
    simp only [applyDNL, List.foldl_cons] at *
    refine ih ?_
    intro x rs hx
    rw [lookupRanges_entryPush] at hx
    by_cases hxc : x = c
    · rw [if_pos hxc] at hx
      cases hx
      intro r hrmem
      rcases List.mem_append.mp hrmem with hrmem | hrmem
      · rcases hlk : lookupRanges st.2 c with _ | old <;> rw [hlk] at hrmem
        · simp at hrmem
        · exact hr c old hlk r (by simpa using hrmem)
      · simp at hrmem
        subst hrmem
        exact ⟨by omega, by omega⟩
    · rw [if_neg hxc] at hx
      exact hr x rs hx

theorem applyEvent_good {st : ParseState} {e : Event} {n : Nat}
    (h1 : 1 ≤ n) (hn : n ≤ e.line) (ho : OpensGood st.1 n)
    (hr : RangesGood st.2) :
    OpensGood (applyEvent st e).1 e.line ∧ RangesGood (applyEvent st e).2 := by
  have h1' : 1 ≤ e.line := le_trans h1 hn
  unfold applyEvent
  cases e.action with
  | disable =>
    refine ⟨applyDisable_good h1' hn ho, ?_⟩
    rw [applyDisable_snd]
    exact hr
  | enable => exact applyEnable_good h1' hn ho hr
  | disableNextLine =>
    refine ⟨?_, applyDNL_good hr⟩
    rw [applyDNL_fst]
    exact OpensGood_weaken ho hn

theorem foldl_applyEvent_good :
    ∀ (evs : List Event) (st : ParseState) (n : Nat), 1 ≤ n →
      EventsOK n evs → OpensGood st.1 n → RangesGood st.2 →
      RangesGood ((evs.foldl applyEvent st).2) := by
  intro evs
  induction evs with
  | nil => intro st n _ _ _ hr; exact hr
  | cons e es ih =>
    intro st n h1 hok ho hr
    rw [List.foldl_cons]
    obtain ⟨hle, hok'⟩ := hok
    obtain ⟨ho', hr'⟩ := applyEvent_good h1 hle ho hr
    exact ih _ e.line (le_trans h1 hle) hok' ho' hr'

theorem eventsOK_append_const {g : List Event} {rest : List Event} {n : Nat}
    (hg : ∀ e ∈ g, e.line = n) (hrest : EventsOK n rest) :
    EventsOK n (g ++ rest) := by
  induction g with
  | nil => exact hrest
  | cons e g' ih =>
    refine ⟨by rw [hg e (by simp)], ?_⟩
    rw [hg e (by simp)]
    exact ih fun e' he' => hg e' (by simp [he'])

theorem eventsFrom_ok : ∀ (ls : List (List Char)) (n : Nat),
    EventsOK n (eventsFrom n ls) := by
  intro ls
  induction ls with
  | nil => intro n; trivial
  | cons l ls ih =>
    intro n
    unfold eventsFrom
    refine eventsOK_append_const ?_ (EventsOK_weaken (Nat.le_succ n) (ih (n + 1)))
    intro e he
    simp at he
    obtain ⟨a, cap, -, he⟩ := he
    rw [← he]

/-- C10: every range stored by `parse_suppressions` satisfies
`1 ≤ start ≤ end`; consequently `is_suppressed(check, 0)` holds iff the
check is fully suppressed (the file-level sentinel), so a finding whose
sentence or paragraph index falls outside the line map — which the lint
engine resolves to line 0 via `unwrap_or(0)` — is dropped by suppression
filtering iff the check is fully suppressed, never by a mere region
suppression. -/
theorem parseSuppressions_range_invariant (input : List Char) (check : String)
    (lineMap : List Nat) (n : Nat) (h : lineMap.length ≤ n - 1) :
    (∀ rs, lookupRanges (parseSuppressions input) check = some rs →
      ∀ r ∈ rs, 1 ≤ r.1 ∧ r.1 ≤ r.2) ∧
    isSuppressed (parseSuppressions input) check 0 =
      isFullySuppressed (parseSuppressions input) check ∧
    lineAt lineMap n = 0 ∧
    isSuppressed (parseSuppressions input) check (lineAt lineMap n) =
      isFullySuppressed (parseSuppressions input) check := by
  have hgood : RangesGood (parseSuppressions input) := by
    unfold parseSuppressions
    rcases hfold : (extractEvents input).foldl applyEvent (([], []) : ParseState)
      with ⟨openSet, m⟩
    have hm : RangesGood m := by
      have := foldl_applyEvent_good (extractEvents input) ([], []) 1 le_rfl
        (eventsFrom_ok _ 1) (by intro c s hc; simp [lookupOpen] at hc)
        (by intro c rs hc; simp [lookupRanges] at hc)
      rw [hfold] at this
      exact this
    intro c rs hc
    rcases lookupRanges_finalize_cases openSet m c with hcase | hcase
    · rw [hcase] at hc
      exact hm c rs hc
    · rw [hcase] at hc
      cases hc
      simp
  have hzero : isSuppressed (parseSuppressions input) check 0 =
      isFullySuppressed (parseSuppressions input) check := by
    unfold isSuppressed isFullySuppressed
    cases hlk : lookupRanges (parseSuppressions input) check with
    | none => rfl
    | some rs =>
      cases rs with
      | nil => rfl
      | cons r rest =>
        simp only [List.isEmpty_cons, if_false]
        have hany : ((r :: rest).any fun q => q.1 ≤ 0 && 0 ≤ q.2) = false := by
          rw [List.any_eq_false]
          intro q hq
          have := hgood check (r :: rest) hlk q hq
          simp
          omega
        rw [hany]
        rfl
  have hline : lineAt lineMap n = 0 := by
    unfold lineAt
    rw [List.get?_eq_none.mpr h]
    rfl
  exact ⟨hgood check, hzero, hline, by rw [hline]; exact hzero⟩

/-- C10 witness: the invariant applied at a concrete parse, check name,
line map and out-of-range index. -/
theorem parseSuppressions_range_invariant_witness :
    ([] : List Nat).length ≤ 3 - 1 ∧
    ((∀ rs, lookupRanges
        (parseSuppressions "<!-- bito-lint disable-next-line style -->\nText.".data)
        "style" = some rs → ∀ r ∈ rs, 1 ≤ r.1 ∧ r.1 ≤ r.2) ∧
     isSuppressed
        (parseSuppressions "<!-- bito-lint disable-next-line style -->\nText.".data)
        "style" 0 =
       isFullySuppressed
        (parseSuppressions "<!-- bito-lint disable-next-line style -->\nText.".data)
        "style" ∧
     lineAt ([] : List Nat) 3 = 0 ∧
     isSuppressed
        (parseSuppressions "<!-- bito-lint disable-next-line style -->\nText.".data)
        "style" (lineAt ([] : List Nat) 3) =
       isFullySuppressed
        (parseSuppressions "<!-- bito-lint disable-next-line style -->\nText.".data)
        "style") :=
  ⟨by decide,
   parseSuppressions_range_invariant
     "<!-- bito-lint disable-next-line style -->\nText.".data "style" [] 3
     (by decide)⟩

theorem applyDisable_proj (X : String) :
    ∀ (checks : List String) (line : Nat) (st : ParseState),
      lookupOpen (applyDisable line checks st).1 X =
        (if X ∈ checks then some line else lookupOpen st.1 X) ∧
      (applyDisable line checks st).2 = st.2 := by
  intro checks
  induction checks with
  | nil => intro line st; simp [applyDisable]
  | cons c cs ih =>
    intro line st
    have step : applyDisable line (c :: cs) st =
        applyDisable line cs (insertOpen st.1 c line, st.2) := rfl
    rw [step]
    obtain ⟨ih1, ih2⟩ := ih line (insertOpen st.1 c line, st.2)
    refine ⟨?_, ih2⟩
    rw [ih1]
    by_cases hcs : X ∈ cs
    · simp [hcs]
    · by_cases hxc : X = c
      · subst hxc
        simp [hcs, lookupOpen_insertOpen]
      · simp [hcs, hxc, lookupOpen_insertOpen]

theorem applyEnable_proj (X : String) :
    ∀ (checks : List String) (line : Nat) (st : ParseState),
      lookupOpen (applyEnable line checks st).1 X =
        (if X ∈ checks then none else lookupOpen st.1 X) ∧
      lookupRanges (applyEnable line checks st).2 X =
        (if X ∈ checks then
          (match lookupOpen st.1 X with
           | some s => some ((lookupRanges st.2 X).getD [] ++ [(s, line)])
           | none => lookupRanges st.2 X)
         else lookupRanges st.2 X) := by
  intro checks
  induction checks with
  | nil => intro line st; simp [applyEnable]
  | cons c cs ih =>
    intro line st
    have step : applyEnable line (c :: cs) st =
        applyEnable line cs
          (match removeOpen st.1 c with
           | (some start, o') => (o', entryPush st.2 c (start, line))
           | (none, o') => (o', st.2)) := rfl
    rw [step]
    by_cases hxc : X = c
    · subst hxc
      cases hlk : lookupOpen st.1 X with
      | some s =>
        have hrm : removeOpen st.1 X = (some s, (removeOpen st.1 X).2) := by
          unfold removeOpen
          rw [hlk]
        rw [hrm]
        obtain ⟨ih1, ih2⟩ := ih line ((removeOpen st.1 X).2, entryPush st.2 X (s, line))
        rw [ih1, ih2]
        have hop : lookupOpen (removeOpen st.1 X).2 X = none := by
          rw [lookupOpen_removeOpen]
          simp
        have hpu : lookupRanges (entryPush st.2 X (s, line)) X =
            some ((lookupRanges st.2 X).getD [] ++ [(s, line)]) := by
          rw [lookupRanges_entryPush]
          simp
        constructor
        · by_cases hcs : X ∈ cs <;> simp [hcs, hop]
        · by_cases hcs : X ∈ cs <;> simp [hcs, hop, hpu]
      | none =>
        have hrm : removeOpen st.1 X = (none, (removeOpen st.1 X).2) := by
          unfold removeOpen
          rw [hlk]
        rw [hrm]
        obtain ⟨ih1, ih2⟩ := ih line ((removeOpen st.1 X).2, st.2)
        rw [ih1, ih2]
        have hop : lookupOpen (removeOpen st.1 X).2 X = none := by
          rw [lookupOpen_removeOpen]
          simp
        constructor
        · by_cases hcs : X ∈ cs <;> simp [hcs, hop]
        · by_cases hcs : X ∈ cs <;> simp [hcs, hop]
    · rcases hrm : removeOpen st.1 c with ⟨found, o'⟩
      have hop : lookupOpen o' X = lookupOpen st.1 X := by
        have : o' = (removeOpen st.1 c).2 := by rw [hrm]
        rw [this, lookupOpen_removeOpen, if_neg hxc]
      cases found with
      | some s =>
        obtain ⟨ih1, ih2⟩ := ih line (o', entryPush st.2 c (s, line))
        rw [ih1, ih2]
        have hpu : lookupRanges (entryPush st.2 c (s, line)) X = lookupRanges st.2 X := by
          rw [lookupRanges_entryPush, if_neg hxc]
        constructor
        · by_cases hcs : X ∈ cs <;> simp [hcs, hxc, hop]
        · by_cases hcs : X ∈ cs <;> simp [hcs, hxc, hop, hpu]
      | none =>
        obtain ⟨ih1, ih2⟩ := ih line (o', st.2)
        rw [ih1, ih2]
        constructor
        · by_cases hcs : X ∈ cs <;> simp [hcs, hxc, hop]
        · by_cases hcs : X ∈ cs <;> simp [hcs, hxc, hop]

theorem applyDNL_proj_notmem (X : String) :
    ∀ (checks : List String) (line : Nat) (st : ParseState), X ∉ checks →
      lookupOpen (applyDNL line checks st).1 X = lookupOpen st.1 X ∧
      lookupRanges (applyDNL line checks st).2 X = lookupRanges st.2 X := by
  intro checks
  induction checks with
  | nil => intro line st _; simp [applyDNL]
  | cons c cs ih =>
    intro line st hmem
    have hxc : X ≠ c := fun h => hmem (by simp [h])
    have hcs : X ∉ cs := fun h => hmem (by simp [h])
    have step : applyDNL line (c :: cs) st =
        applyDNL line cs (st.1, entryPush st.2 c (line + 1, line + 1)) := rfl
    rw [step]
    obtain ⟨ih1, ih2⟩ := ih line (st.1, entryPush st.2 c (line + 1, line + 1)) hcs
    rw [ih1, ih2]
    refine ⟨rfl, ?_⟩
    rw [lookupRanges_entryPush, if_neg hxc]

/-- The effect of a chronological directive sequence on one check's
projected state (open-line and range-list); `disable-next-line` entries are
treated as absent since the theorems using this never pass them. -/
def projAfter : List (Nat × Action) →
    Option Nat × Option (List (Nat × Nat)) →
    Option Nat × Option (List (Nat × Nat))
  | [], pr => pr
  | (l, .disable) :: rest, pr => projAfter rest (some l, pr.2)
  | (l, .enable) :: rest, pr =>
    projAfter rest
      (none,
        match pr.1 with
        | some s => some (pr.2.getD [] ++ [(s, l)])
        | none => pr.2)
  | (_, .disableNextLine) :: rest, pr => projAfter rest pr

theorem foldl_applyEvent_proj (X : String) :
    ∀ (evs : List Event) (st : ParseState)
      (L : List (Nat × Action)),
      (evs.filter (fun e => X ∈ e.checks)).map (fun e => (e.line, e.action)) = L →
      (∀ p ∈ L, p.2 ≠ Action.disableNextLine) →
      (lookupOpen (evs.foldl applyEvent st).1 X,
        lookupRanges ((evs.foldl applyEvent st).2) X) =
        projAfter L (lookupOpen st.1 X, lookupRanges st.2 X) := by
  intro evs
  induction evs with
  | nil =>
    intro st L hL _
    simp at hL
    subst hL
    rfl
  | cons e es ih =>
    intro st L hL hnd
    rw [List.foldl_cons]
    by_cases hmem : X ∈ e.checks
    · rw [List.filter_cons_of_pos (by simpa using hmem), List.map_cons] at hL
      subst hL
      cases ha : e.action with
      | disable =>
        have happ : applyEvent st e = applyDisable e.line e.checks st := by
          unfold applyEvent
          rw [ha]
        rw [happ]
        obtain ⟨h1, h2⟩ := applyDisable_proj X e.checks e.line st
        have := ih (applyDisable e.line e.checks st) _ rfl
          (fun p hp => hnd p (by simp [hp]))
        rw [this, h1, h2, if_pos hmem]
        rfl
      | enable =>
        have happ : applyEvent st e = applyEnable e.line e.checks st := by
          unfold applyEvent
          rw [ha]
        rw [happ]
        obtain ⟨h1, h2⟩ := applyEnable_proj X e.checks e.line st
        have := ih (applyEnable e.line e.checks st) _ rfl
          (fun p hp => hnd p (by simp [hp]))
        rw [this, h1, h2, if_pos hmem, if_pos hmem]
        cases lookupOpen st.1 X <;> rfl
      | disableNextLine =>
        have hcon : (e.line, e.action).2 ≠ Action.disableNextLine :=
          hnd (e.line, e.action) (by simp)
        rw [ha] at hcon
        exact absurd rfl hcon
    · rw [List.filter_cons_of_neg (by simpa using hmem)] at hL
      cases ha : e.action with
      | disable =>
        have happ : applyEvent st e = applyDisable e.line e.checks st := by
          unfold applyEvent
          rw [ha]
        rw [happ]
        obtain ⟨h1, h2⟩ := applyDisable_proj X e.checks e.line st
        have := ih (applyDisable e.line e.checks st) _ hL hnd
        rw [this, h1, h2, if_neg hmem]
      | enable =>
        have happ : applyEvent st e = applyEnable e.line e.checks st := by
          unfold applyEvent
          rw [ha]
        rw [happ]
        obtain ⟨h1, h2⟩ := applyEnable_proj X e.checks e.line st
        have := ih (applyEnable e.line e.checks st) _ hL hnd
        rw [this, h1, h2, if_neg hmem, if_neg hmem]
      | disableNextLine =>
        have happ : applyEvent st e = applyDNL e.line e.checks st := by
          unfold applyEvent
          rw [ha]
        rw [happ]
        obtain ⟨h1, h2⟩ := applyDNL_proj_notmem X e.checks e.line st hmem
        have := ih (applyDNL e.line e.checks st) _ hL hnd
        rw [this, h1, h2]

/-- C3: for every input whose directive occurrences mentioning a check `X`
are exactly a `disable X` on line 2 and an `enable X` on line 5, the parsed
map stores exactly the inclusive range `(2, 5)` for `X` (the enable closes
the open disable as `(open_line, current_line)` appended to the range
list), so `is_suppressed(X, n)` holds exactly for `2 ≤ n ≤ 5` and `X` is
not fully suppressed. -/
theorem parseSuppressions_disable_enable_range (input : List Char) (X : String)
    (h : ((extractEvents input).filter (fun e => X ∈ e.checks)).map
        (fun e => (e.line, e.action)) = [(2, .disable), (5, .enable)]) :
    lookupRanges (parseSuppressions input) X = some [(2, 5)] ∧
    (∀ n, isSuppressed (parseSuppressions input) X n = decide (2 ≤ n ∧ n ≤ 5)) ∧
    isFullySuppressed (parseSuppressions input) X = false := by
  have hrange : lookupRanges (parseSuppressions input) X = some [(2, 5)] := by
    unfold parseSuppressions
    rcases hfold : (extractEvents input).foldl applyEvent (([], []) : ParseState)
      with ⟨o, m⟩
    have hproj := foldl_applyEvent_proj X (extractEvents input)
      ([], []) [(2, .disable), (5, .enable)] h (by decide)
    rw [hfold] at hproj
    have heval : projAfter [(2, Action.disable), (5, Action.enable)]
        ((none : Option Nat), (none : Option (List (Nat × Nat)))) =
        (none, some [(2, 5)]) := rfl
    have hinit : (lookupOpen ([] : OpenSet) X,
        lookupRanges ([] : SuppressionMap) X) =
        ((none : Option Nat), (none : Option (List (Nat × Nat)))) := rfl
    rw [hinit] at hproj
    rw [heval] at hproj
    obtain ⟨h1, h2⟩ := Prod.mk.injEq .. ▸ hproj
    rw [lookupRanges_finalize_of_not_open o m X h1]
    exact h2
  refine ⟨hrange, ?_, ?_⟩
  · intro n
    unfold isSuppressed
    rw [hrange]
    simp only [List.isEmpty_cons, if_false, List.any_cons, List.any_nil,
      Bool.or_false]
    rcases Nat.decLe 2 n with h2 | h2 <;> rcases Nat.decLe n 5 with h5 | h5 <;>
      simp_all
  · unfold isFullySuppressed
    rw [hrange]
    rfl

/-- Concrete input for the C3 witness. -/
def c3Input : List Char :=
  "a\n<!-- bito-lint disable X -->\nb\nc\n<!-- bito-lint enable X -->\nf".data

/-- C3 witness: the theorem applied to a concrete document with `disable X`
on line 2 and `enable X` on line 5. -/
theorem parseSuppressions_disable_enable_range_witness :
    ((extractEvents c3Input).filter (fun e => "X" ∈ e.checks)).map
        (fun e => (e.line, e.action)) = [(2, .disable), (5, .enable)] ∧
    lookupRanges (parseSuppressions c3Input) "X" = some [(2, 5)] ∧
    (∀ n, isSuppressed (parseSuppressions c3Input) "X" n =
      decide (2 ≤ n ∧ n ≤ 5)) ∧
    isFullySuppressed (parseSuppressions c3Input) "X" = false :=
  ⟨by decide, parseSuppressions_disable_enable_range c3Input "X" (by decide)⟩

/-! ### C8: which check names a directive can carry

The capture group of the directive regex is `([\w,\s]+?)`: only word
characters, commas and whitespace. A name made of word characters is
matched verbatim; a name containing any other character (such as a hyphen)
makes the whole directive fail to match. -/

theorem wordChar_not_ws {c : Char} (h : rustIsWordChar c = true) :
    rustIsWs c = false := by
  simp only [rustIsWordChar, rustIsAlnum, rustIsUpper, rustIsLower, rustIsDigit,
    Bool.or_eq_true, Bool.and_eq_true, decide_eq_true_eq] at h
  have hb : 48 ≤ c.toNat ∧ c.toNat ≤ 122 := by
    have e1 : Char.toNat 'A' = 65 := rfl
    have e2 : Char.toNat 'Z' = 90 := rfl
    have e3 : Char.toNat 'a' = 97 := rfl
    have e4 : Char.toNat 'z' = 122 := rfl
    have e5 : Char.toNat '0' = 48 := rfl
    have e6 : Char.toNat '9' = 57 := rfl
    rw [e1, e2, e3, e4, e5, e6] at h
    rcases h with ((⟨h1, h2⟩ | ⟨h1, h2⟩) | ⟨h1, h2⟩) | hc
    · omega
    · omega
    · omega
    · subst hc
      exact ⟨by decide, by decide⟩
  simp only [rustIsWs, Bool.or_eq_false_iff, Bool.and_eq_false_iff,
    decide_eq_false_iff_not]
  omega

theorem wordChar_ne {c x : Char} (h : rustIsWordChar c = true)
    (hx : rustIsWordChar x = false) : c ≠ x := by
  intro he
  rw [he, hx] at h
  exact Bool.false_ne_true h

theorem wordChar_class {c : Char} (h : rustIsWordChar c = true) :
    directiveNameChar c = true := by
  simp [directiveNameChar, h]

theorem dropWhile_all_false {p : Char → Bool} :
    ∀ l : List Char, (∀ c ∈ l, p c = false) → l.dropWhile p = l := by
  intro l h
  cases l with
  | nil => rfl
  | cons c cs =>
    rw [List.dropWhile_cons_of_neg (by simp [h c (by simp)])]

theorem rustTrim_not_ws {l : List Char} (h : ∀ c ∈ l, rustIsWs c = false) :
    rustTrim l = l := by
  unfold rustTrim
  rw [dropWhile_all_false l h,
    dropWhile_all_false l.reverse (fun c hc => h c (List.mem_reverse.mp hc)),
    List.reverse_reverse]

theorem splitComma_no_comma :
    ∀ l : List Char, (∀ c ∈ l, c ≠ ',') → splitComma l = [l] := by
  intro l
  induction l with
  | nil => intro _; rfl
  | cons c cs ih =>
    intro h
    unfold splitComma
    rw [if_neg (h c (by simp)), ih (fun d hd => h d (by simp [hd]))]

theorem splitComma_append :
    ∀ (l rest : List Char), (∀ c ∈ l, c ≠ ',') →
      splitComma (l ++ ',' :: rest) = l :: splitComma rest := by
  intro l rest
  induction l with
  | nil =>
    intro _
    rw [List.nil_append]
    conv_lhs => rw [splitComma]
    rw [if_pos rfl]
  | cons c cs ih =>
    intro h
    rw [List.cons_append]
    conv_lhs => rw [splitComma]
    rw [if_neg (h c (by simp)), ih (fun d hd => h d (by simp [hd]))]

theorem dirNames_word (nm : List Char) (hne : nm ≠ [])
    (hw : ∀ c ∈ nm, rustIsWordChar c = true) : dirNames nm = [nm.asString] := by
  unfold dirNames
  rw [splitComma_no_comma nm (fun c hc => wordChar_ne (hw c hc) (by decide)),
    List.map_cons, List.map_nil,
    rustTrim_not_ws (fun c hc => wordChar_not_ws (hw c hc))]
  simp [List.filterMap_cons, hne]

theorem dirNames_commas (nm : List Char) (hne : nm ≠ [])
    (hw : ∀ c ∈ nm, rustIsWordChar c = true) :
    dirNames (nm ++ ',' :: ' ' :: (nm ++ [','])) =
      [nm.asString, nm.asString] := by
  have hnc : ∀ c ∈ nm, c ≠ ',' := fun c hc => wordChar_ne (hw c hc) (by decide)
  have hnw : ∀ c ∈ nm, rustIsWs c = false := fun c hc => wordChar_not_ws (hw c hc)
  unfold dirNames
  rw [show nm ++ ',' :: ' ' :: (nm ++ [',']) =
      nm ++ ',' :: ((' ' :: nm) ++ ',' :: ([] : List Char)) from rfl]
  rw [splitComma_append nm ((' ' :: nm) ++ ',' :: ([] : List Char)) hnc]
  rw [splitComma_append (' ' :: nm) [] (by
    intro c hc
    rcases List.mem_cons.mp hc with h | h
    · subst h; decide
    · exact hnc c h)]
  have ht2 : rustTrim (' ' :: nm) = nm := by
    unfold rustTrim
    rw [List.dropWhile_cons_of_pos (by decide), dropWhile_all_false nm hnw,
      dropWhile_all_false nm.reverse (fun c hc => hnw c (List.mem_reverse.mp hc)),
      List.reverse_reverse]
  rw [show splitComma ([] : List Char) = [([] : List Char)] from rfl,
    List.map_cons, List.map_cons, List.map_cons, List.map_nil,
    rustTrim_not_ws hnw, ht2,
    show rustTrim ([] : List Char) = [] from rfl]
  simp [List.filterMap_cons, hne]

theorem matchTail_close (R : List Char) :
    matchTail (' ' :: '-' :: '-' :: '>' :: R) = some R := rfl

theorem matchTail_word_head {d : Char} (hd : rustIsWordChar d = true)
    (rest : List Char) : matchTail (d :: rest) = none := by
  unfold matchTail
  rw [List.dropWhile_cons_of_neg (by simp [wordChar_not_ws hd])]
  unfold stripLit
  rw [if_neg (wordChar_ne hd (by decide) : d ≠ '-')]

theorem lazyCapture_word :
    ∀ nm : List Char, nm ≠ [] → (∀ c ∈ nm, rustIsWordChar c = true) →
      ∀ R : List Char,
        lazyCapture (nm ++ ' ' :: '-' :: '-' :: '>' :: R) = some (nm, R) := by
  intro nm
  induction nm with
  | nil => intro h; exact absurd rfl h
  | cons c cs ih =>
    intro _ hw R
    rw [List.cons_append]
    unfold lazyCapture
    rw [if_pos (wordChar_class (hw c (by simp)))]
    cases cs with
    | nil =>
      rw [List.nil_append, matchTail_close R]
    | cons d ds =>
      have he : (d :: ds) ++ ' ' :: '-' :: '-' :: '>' :: R =
          d :: (ds ++ ' ' :: '-' :: '-' :: '>' :: R) := rfl
      have ihh := ih (by simp) (fun e hemem => hw e (by simp [hemem])) R
      rw [he] at ihh
      rw [he, matchTail_word_head (hw d (by simp)), ihh]

theorem wsCapGo_word (nm : List Char) (hne : nm ≠ [])
    (hw : ∀ c ∈ nm, rustIsWordChar c = true) (R : List Char) :
    wsCapGo (nm ++ ' ' :: '-' :: '-' :: '>' :: R) = some (nm, R) := by
  obtain ⟨c, cs, rfl⟩ : ∃ c cs, nm = c :: cs := by
    cases nm with
    | nil => exact absurd rfl hne
    | cons c cs => exact ⟨c, cs, rfl⟩
  rw [List.cons_append]
  unfold wsCapGo
  rw [if_neg (by simp [wordChar_not_ws (hw c (by simp))])]
  rw [← List.cons_append]
  exact lazyCapture_word (c :: cs) hne hw R

theorem matchAction_disable {xs cap rest : List Char}
    (h : wsCapGo xs = some (cap, rest)) :
    matchAction ("disable ".data ++ xs) = some (.disable, cap, rest) := by
  simp only [matchAction, tryKeyword,
    show stripLit "disable".data ("disable ".data ++ xs) = some (' ' :: xs)
      from rfl,
    show afterKeyword (' ' :: xs) = wsCapGo xs from rfl, h]

theorem matchAction_enable {xs cap rest : List Char}
    (h : wsCapGo xs = some (cap, rest)) :
    matchAction ("enable ".data ++ xs) = some (.enable, cap, rest) := by
  simp only [matchAction, tryKeyword,
    show stripLit "disable".data ("enable ".data ++ xs) = none from rfl,
    show stripLit "enable".data ("enable ".data ++ xs) = some (' ' :: xs)
      from rfl,
    show afterKeyword (' ' :: xs) = wsCapGo xs from rfl, h]

theorem matchDirective_disable {xs cap rest : List Char}
    (h : wsCapGo xs = some (cap, rest)) :
    matchDirective ("<!-- bito-lint disable ".data ++ xs) =
      some (.disable, cap, rest) := by
  simp only [matchDirective,
    show stripLit "<!--".data ("<!-- bito-lint disable ".data ++ xs) =
      some (" bito-lint disable ".data ++ xs) from rfl,
    show (" bito-lint disable ".data ++ xs).dropWhile rustIsWs =
      "bito-lint disable ".data ++ xs from rfl,
    show stripLit "bito-lint".data ("bito-lint disable ".data ++ xs) =
      some (" disable ".data ++ xs) from rfl,
    show " disable ".data ++ xs = ' ' :: ("disable ".data ++ xs) from rfl,
    show rustIsWs ' ' = true from rfl, if_true,
    show ("disable ".data ++ xs).dropWhile rustIsWs = "disable ".data ++ xs
      from rfl]
  exact matchAction_disable h

theorem matchDirective_enable {xs cap rest : List Char}
    (h : wsCapGo xs = some (cap, rest)) :
    matchDirective ("<!-- bito-lint enable ".data ++ xs) =
      some (.enable, cap, rest) := by
  simp only [matchDirective,
    show stripLit "<!--".data ("<!-- bito-lint enable ".data ++ xs) =
      some (" bito-lint enable ".data ++ xs) from rfl,
    show (" bito-lint enable ".data ++ xs).dropWhile rustIsWs =
      "bito-lint enable ".data ++ xs from rfl,
    show stripLit "bito-lint".data ("bito-lint enable ".data ++ xs) =
      some (" enable ".data ++ xs) from rfl,
    show " enable ".data ++ xs = ' ' :: ("enable ".data ++ xs) from rfl,
    show rustIsWs ' ' = true from rfl, if_true,
    show ("enable ".data ++ xs).dropWhile rustIsWs = "enable ".data ++ xs
      from rfl]
  exact matchAction_enable h

theorem scanLine_nil_eq : scanLine [] = [] := rfl

theorem scanLine_match_head {cs : List Char} {a : Action} {cap after : List Char}
    (hcs : cs ≠ []) (h : matchDirective cs = some (a, cap, after)) :
    scanLine cs = (a, cap) :: scanLine after := by
  obtain ⟨c, rest, rfl⟩ : ∃ c r, cs = c :: r := by
    cases cs with
    | nil => exact absurd rfl hcs
    | cons c r => exact ⟨c, r, rfl⟩
  have hlen := matchDirective_length h
  have hfuel : scanLineF rest.length after = scanLineF after.length after := by
    apply scanLineF_fuel
    · simp at hlen
      omega
    · exact le_rfl
  show scanLineF (rest.length + 1) (c :: rest) = _
  unfold scanLineF
  rw [h]
  show (a, cap) :: scanLineF rest.length after = (a, cap) :: scanLine after
  rw [hfuel]
  rfl

theorem breakNL_no_nl :
    ∀ cs : List Char, ('\n' : Char) ∉ cs → breakNL cs = (cs, none) := by
  intro cs
  induction cs with
  | nil => intro _; rfl
  | cons c cs ih =>
    intro h
    unfold breakNL
    rw [if_neg (by intro hc; exact h (by simp [hc])),
      ih (fun hm => h (by simp [hm]))]

theorem append_ne_nil_right {α : Type} (l1 : List α) {l2 : List α}
    (h : l2 ≠ []) : l1 ++ l2 ≠ [] := by
  cases l1 with
  | nil => simpa using h
  | cons c cs => simp

theorem getLast_append_right {α : Type} {l2 : List α} (h : l2 ≠ []) :
    ∀ l1 : List α, (l1 ++ l2).getLast? = l2.getLast? := by
  intro l1
  induction l1 with
  | nil => rfl
  | cons c cs ih =>
    cases cs with
    | nil =>
      cases l2 with
      | nil => exact absurd rfl h
      | cons d ds => rfl
    | cons d ds => exact ih

theorem rustLines_single (cs : List Char) (hne : cs ≠ [])
    (hnl : ('\n' : Char) ∉ cs) (hcr : cs.getLast? ≠ some '\r') :
    rustLines cs = [cs] := by
  obtain ⟨c, rest, rfl⟩ : ∃ c r, cs = c :: r := by
    cases cs with
    | nil => exact absurd rfl hne
    | cons c r => exact ⟨c, r, rfl⟩
  show rustLinesF (rest.length + 1) (c :: rest) = [c :: rest]
  unfold rustLinesF
  rw [breakNL_no_nl (c :: rest) hnl]
  show [stripCR (c :: rest)] = [c :: rest]
  unfold stripCR
  rw [if_neg hcr]

/-- The document used to probe check-name handling: a `disable` and a
matching `enable` directive for the same name, both on line 1. -/
def c8Doc (nm : List Char) : List Char :=
  "<!-- bito-lint disable ".data ++
    (nm ++ (" --><!-- bito-lint enable ".data ++ (nm ++ " -->".data)))

theorem scanLine_c8 (nm : List Char) (hne : nm ≠ [])
    (hw : ∀ c ∈ nm, rustIsWordChar c = true) :
    scanLine (c8Doc nm) = [(.disable, nm), (.enable, nm)] := by
  have h1 : wsCapGo (nm ++ ' ' :: '-' :: '-' :: '>' ::
      ("<!-- bito-lint enable ".data ++ (nm ++ " -->".data))) =
      some (nm, "<!-- bito-lint enable ".data ++ (nm ++ " -->".data)) :=
    wsCapGo_word nm hne hw _
  have h2 : wsCapGo (nm ++ ' ' :: '-' :: '-' :: '>' :: ([] : List Char)) =
      some (nm, []) := wsCapGo_word nm hne hw []
  have hd1 : matchDirective (c8Doc nm) =
      some (.disable, nm, "<!-- bito-lint enable ".data ++ (nm ++ " -->".data)) :=
    matchDirective_disable h1
  have hd2 : matchDirective ("<!-- bito-lint enable ".data ++ (nm ++ " -->".data)) =
      some (.enable, nm, ([] : List Char)) := matchDirective_enable h2
  have hne1 : c8Doc nm ≠ [] := by
    rw [show c8Doc nm = '<' :: ("!-- bito-lint disable ".data ++
      (nm ++ (" --><!-- bito-lint enable ".data ++ (nm ++ " -->".data)))) from rfl]
    exact List.cons_ne_nil _ _
  have hne2 : "<!-- bito-lint enable ".data ++ (nm ++ " -->".data) ≠ [] := by
    rw [show "<!-- bito-lint enable ".data ++ (nm ++ " -->".data) =
      '<' :: ("!-- bito-lint enable ".data ++ (nm ++ " -->".data)) from rfl]
    exact List.cons_ne_nil _ _
  rw [scanLine_match_head hne1 hd1, scanLine_match_head hne2 hd2, scanLine_nil_eq]

/-- C8 (amended core): for every non-empty check name made solely of word
characters, the single-line document with a `disable` and a matching
`enable` directive records exactly the range `(1, 1)` under exactly that
name; and a capture is comma-separated, entries are individually trimmed,
and empty entries are dropped. -/
theorem parseSuppressions_wordchar_name (nm : List Char) (hne : nm ≠ [])
    (hw : ∀ c ∈ nm, rustIsWordChar c = true) :
    parseSuppressions (c8Doc nm) = [(nm.asString, [(1, 1)])] ∧
    dirNames (nm ++ ',' :: ' ' :: (nm ++ [','])) =
      [nm.asString, nm.asString] := by
  refine ⟨?_, dirNames_commas nm hne hw⟩
  have hne1 : c8Doc nm ≠ [] := by
    rw [show c8Doc nm = '<' :: ("!-- bito-lint disable ".data ++
      (nm ++ (" --><!-- bito-lint enable ".data ++ (nm ++ " -->".data)))) from rfl]
    exact List.cons_ne_nil _ _
  have hnl : ('\n' : Char) ∉ c8Doc nm := by
    intro hmem
    simp only [c8Doc, List.append_assoc, List.mem_append] at hmem
    rcases hmem with h | h | h | h | h
    · exact absurd h (by decide)
    · exact absurd (hw _ h) (by decide)
    · exact absurd h (by decide)
    · exact absurd (hw _ h) (by decide)
    · exact absurd h (by decide)
  have hcr : (c8Doc nm).getLast? ≠ some '\r' := by
    have hC : (" -->".data : List Char) ≠ [] := by decide
    have h3 : nm ++ " -->".data ≠ [] := append_ne_nil_right nm hC
    have hM : " --><!-- bito-lint enable ".data ++ (nm ++ " -->".data) ≠ [] :=
      append_ne_nil_right _ h3
    have h1 : nm ++ (" --><!-- bito-lint enable ".data ++ (nm ++ " -->".data)) ≠ [] :=
      append_ne_nil_right nm hM
    have hg : (c8Doc nm).getLast? = some '>' := by
      unfold c8Doc
      rw [getLast_append_right h1, getLast_append_right hM,
        getLast_append_right h3, getLast_append_right hC]
      decide
    rw [hg]
    decide
  have hev : extractEvents (c8Doc nm) =
      [⟨1, .disable, [nm.asString]⟩, ⟨1, .enable, [nm.asString]⟩] := by
    unfold extractEvents
    rw [rustLines_single (c8Doc nm) hne1 hnl hcr]
    unfold eventsFrom
    rw [scanLine_c8 nm hne hw]
    simp only [List.map_cons, List.map_nil]
    rw [dirNames_word nm hne hw,
      show eventsFrom (1 + 1) ([] : List (List Char)) = [] from rfl,
      List.append_nil]
  unfold parseSuppressions
  rw [hev]
  simp [applyEvent, applyDisable, applyEnable, applyDNL, insertOpen,
    removeOpen, lookupOpen, entryPush, finalizeOpen, List.filter]

/-- C8 counterexample to "free-form strings (including names containing
characters such as hyphens) matched verbatim": a hyphen is outside the
capture class `[\w,\s]`, so the same directive pair written for the name
`my-check` matches nothing at all and the parsed suppression map is
empty. -/
theorem parseSuppressions_hyphen_name_unmatched :
    "my-check".data ≠ [] ∧
    parseSuppressions (c8Doc "my-check".data) = [] ∧
    isSuppressed (parseSuppressions (c8Doc "my-check".data)) "my-check" 1 =
      false := by
  refine ⟨by decide, ?_, ?_⟩
  · decide
  · decide

/-- C8 witness: the amended theorem applied to the concrete word-character
name `my_check`. -/
theorem parseSuppressions_wordchar_name_witness :
    ("my_check".data ≠ [] ∧ ∀ c ∈ "my_check".data, rustIsWordChar c = true) ∧
    (parseSuppressions (c8Doc "my_check".data) =
        [("my_check".data.asString, [(1, 1)])] ∧
      dirNames ("my_check".data ++ ',' :: ' ' :: ("my_check".data ++ [','])) =
        ["my_check".data.asString, "my_check".data.asString]) :=
  ⟨⟨by decide, by decide⟩,
    parseSuppressions_wordchar_name "my_check".data (by decide) (by decide)⟩

end BitoLint
